import Mathlib

/-!
# Verification of the skill validator (`src/validator/index.js`)

This file shallowly embeds the validation engine of the `skills-builder`
repository: the check-result data model, the `addCheck` aggregator, the full
`checkSkill` evaluation sequence, and the `formatOutput` renderers, together
with theorems settling the frozen claims about them.

Conventions of the embedding:

* Strings are modelled as `List Char` (`Str`), so that the ad-hoc substring
  scans of the source (`startsWith`, `indexOf`, `includes`, `split(/\s+/)`,
  the `description:` regex) become executable structural recursions.
* The host filesystem is an abstract record `FS` of pure functions
  (`existsSync`, `statSync().isDirectory()`, `readFileSync`); a read of a
  missing file is `none`.
* `JSON.parse` of the host runtime is abstracted as a context parameter
  `jparse : Str → Option Json` (`none` models a parse exception); the JSON
  value universe `Json` covers null/booleans/strings/arrays/objects, which is
  every shape the validator inspects (no check depends on numeric values).
* JavaScript runtime faults inside the `try` blocks (property access on
  `null`, `.startsWith` on a non-string) are modelled with `Except Unit`.
* `console.log` calls are side effects with no influence on the report and are
  dropped.
-/

/-- JavaScript strings, modelled as lists of characters. -/
abbrev Str := List Char

/-- Whitespace class of the JavaScript regex `\s` (ASCII part; the embedding
models ASCII file contents). -/
def isWsChar (c : Char) : Bool :=
  c = ' ' || c = '\t' || c = '\n' || c = '\r' || c = '\x0b' || c = '\x0c'

/-- Line terminators, which the JavaScript regex `.` does not match. -/
def isLineTerm (c : Char) : Bool := c = '\n' || c = '\r'

/-- ASCII `toLowerCase` of one character. -/
def lowerChar (c : Char) : Char :=
  if 'A' ≤ c ∧ c ≤ 'Z' then Char.ofNat (c.toNat + 32) else c

/-- `String.prototype.toLowerCase` (ASCII). -/
def strLower (s : Str) : Str := s.map lowerChar

/-- `String.prototype.includes` / substring containment. -/
def strContains : Str → Str → Bool
  | s, pat =>
    if pat.isPrefixOf s then true
    else match s with
      | [] => false
      | _ :: cs => strContains cs pat

/-- Auxiliary scan for `indexOf`: first match position of `pat` in `s`,
counting from `i`. -/
def jsIndexOfAux : Str → Str → Nat → Int
  | s, pat, i =>
    if pat.isPrefixOf s then Int.ofNat i
    else match s with
      | [] => -1
      | _ :: cs => jsIndexOfAux cs pat (i + 1)

/-- `String.prototype.indexOf(pat, start)` (−1 when absent). -/
def jsIndexOf (s pat : Str) (start : Nat) : Int :=
  jsIndexOfAux (s.drop start) pat start

/-- `String.prototype.substring(a, b)` for `a ≤ b` (the only way the source
calls it). -/
def jsSubstring (s : Str) (a b : Nat) : Str := (s.drop a).take (b - a)

/-- `String.prototype.substring(a)` — suffix from `a`. -/
def jsSubstringFrom (s : Str) (a : Nat) : Str := s.drop a

/-- `String.prototype.trim`. -/
def jsTrim (s : Str) : Str :=
  ((s.dropWhile isWsChar).reverse.dropWhile isWsChar).reverse

/-- `String.prototype.startsWith`. -/
def jsStartsWith (s pat : Str) : Bool := pat.isPrefixOf s

/-- One replacement step of `String.prototype.replace(pat, sub)` with a plain
string pattern: only the first occurrence is replaced. -/
def replaceOnce : Str → Str → Str → Str
  | s, pat, sub =>
    if pat ≠ [] ∧ pat.isPrefixOf s then sub ++ s.drop pat.length
    else match s with
      | [] => []
      | c :: cs => c :: replaceOnce cs pat sub

/- `split(/\s+/)`: split at maximal whitespace runs; boundary runs contribute
empty pieces, and the empty string yields one empty piece, exactly as in
JavaScript. `splitWsAux` consumes a piece, `splitWsSkip` consumes a
whitespace run. -/
mutual

def splitWsAux : Str → Str → List Str
  | [], acc => [acc.reverse]
  | c :: cs, acc =>
    if isWsChar c then acc.reverse :: splitWsSkip cs
    else splitWsAux cs (c :: acc)

def splitWsSkip : Str → List Str
  | [] => [[]]
  | c :: cs => if isWsChar c then splitWsSkip cs else splitWsAux cs [c]

end

/-- `String.prototype.split(/\s+/)`. -/
def splitWs (s : Str) : List Str := splitWsAux s []

/-- Decimal rendering of a number interpolated into a template literal. -/
def natStr (n : Nat) : Str := (Nat.repr n).data

/-- `path.join(a, b)`; paths are opaque keys of the abstract filesystem, so
normalization beyond inserting the separator is not modelled. -/
def pjoin (a b : Str) : Str := a ++ '/' :: b

/-- `path.basename`: strip trailing separators, then take the segment after
the last separator. -/
def basename (s : Str) : Str :=
  let s1 := s.reverse.dropWhile (· = '/')
  (s1.takeWhile (· ≠ '/')).reverse

/-! ## The modelled JSON value universe -/

/-- Values produced by `JSON.parse`, restricted to the shapes the validator
ever inspects (no check in the source depends on a numeric value; a number
would behave like any other truthy non-string value). -/
inductive Json where
  | null : Json
  | bool : Bool → Json
  | str : Str → Json
  | arr : List Json → Json
  | obj : List (Str × Json) → Json

/-- JavaScript truthiness of a parsed JSON value. -/
def jsTruthy : Json → Bool
  | .null => false
  | .bool b => b
  | .str s => s ≠ []
  | .arr _ => true
  | .obj _ => true

/-- Strict equality (`===`) of a parsed JSON value with a string literal. -/
def jEqStr : Json → Str → Bool
  | .str s, t => s = t
  | _, _ => false

/-- Last-binding lookup in an association list: `JSON.parse` keeps the last of
duplicate keys. -/
def lookupLast (l : List (Str × Json)) (k : Str) : Option Json :=
  l.foldl (fun acc p => if p.1 = k then some p.2 else acc) none

/-- Property read `j[k]` for the string keys the validator uses: a throw on
`null` (modelled as `Except.error`), the object binding on objects, and
`undefined` (`none`) on every other value. -/
def jGetE (j : Json) (k : Str) : Except Unit (Option Json) :=
  match j with
  | .null => .error ()
  | .obj fs => .ok (lookupLast fs k)
  | _ => .ok none

/-- Key order of a JavaScript object built by `JSON.parse`: first occurrence
determines position, last occurrence determines the value. -/
def firstKeys : List (Str × Json) → List Str
  | [] => []
  | (k, _) :: rest =>
    k :: (firstKeys (rest.filter (fun p => !(p.1 = k : Bool))))
  termination_by l => l.length
  decreasing_by
    simp only [List.length_cons]
    have := List.length_filter_le (fun p => !(p.1 = k : Bool)) rest
    omega

/-- `Object.entries`-style view of a parsed object with duplicate keys
collapsed (first position, last value). -/
def dedupKeys (l : List (Str × Json)) : List (Str × Json) :=
  (firstKeys l).map (fun k => (k, (lookupLast l k).getD Json.null))

/-- `Object.values(j)`: throws on `null`, entry values on objects, elements on
arrays, one-character strings on strings, empty on booleans. -/
def jValuesE (j : Json) : Except Unit (List Json) :=
  match j with
  | .null => .error ()
  | .obj fs => .ok ((dedupKeys fs).map (·.2))
  | .arr xs => .ok xs
  | .str s => .ok (s.map (fun c => Json.str [c]))
  | .bool _ => .ok []

/-- `Object.keys(j)`: throws on `null`, keys on objects, index strings on
arrays and strings, empty on booleans. -/
def jKeysE (j : Json) : Except Unit (List Str) :=
  match j with
  | .null => .error ()
  | .obj fs => .ok (firstKeys fs)
  | .arr xs => .ok ((List.range xs.length).map natStr)
  | .str s => .ok ((List.range s.length).map natStr)
  | .bool _ => .ok []

/-! ## Check results and the report aggregate -/

/-- Severity constants of the source (`SEVERITY` table). -/
def sevError : Str := "error".data
def sevWarning : Str := "warning".data
def sevInfo : Str := "info".data
def sevSuccess : Str := "success".data

/-- One atomic validation outcome, as pushed by `addCheck`. -/
structure Check where
  category : Str
  name : Str
  passed : Bool
  severity : Str
  message : Str
deriving DecidableEq

/-- The `results` aggregate of `checkSkill`. -/
structure Report where
  success : Bool
  skillPath : Str
  skillName : Str
  checks : List Check
  errors : List Check
  warnings : List Check
  recommendations : List Str
deriving DecidableEq

/-- The fresh `results` object created at the start of `checkSkill`. -/
def initReport (skillPath : Str) : Report :=
  { success := true
    skillPath := skillPath
    skillName := basename skillPath
    checks := []
    errors := []
    warnings := []
    recommendations := [] }

/-- The `addCheck` helper: push the check, and bucket it by severity, flipping
`success` on an error. -/
def addCheck (r : Report) (c : Check) : Report :=
  let r1 := { r with checks := r.checks ++ [c] }
  if c.severity = sevError then
    { r1 with errors := r1.errors ++ [c], success := false }
  else if c.severity = sevWarning then
    { r1 with warnings := r1.warnings ++ [c] }
  else r1

/-- A sequence of `addCheck` calls. -/
def applyChecks (r : Report) (l : List Check) : Report := l.foldl addCheck r

/-- The recurring call shape `addCheck(cat, name, cond, cond ? SUCCESS : sevF,
cond ? '' : msg)`. -/
def bCheck (cat nm : Str) (cond : Bool) (sevF : Str) (msg : Str) : Check :=
  { category := cat, name := nm, passed := cond
    severity := if cond then sevSuccess else sevF
    message := if cond then [] else msg }

theorem applyChecks_nil (r : Report) : applyChecks r [] = r := rfl

theorem applyChecks_cons (r : Report) (c : Check) (l : List Check) :
    applyChecks r (c :: l) = applyChecks (addCheck r c) l := rfl

theorem addCheck_checks (r : Report) (c : Check) :
    (addCheck r c).checks = r.checks ++ [c] := by
  simp only [addCheck]
  split_ifs <;> rfl

theorem addCheck_fixed (r : Report) (c : Check) :
    (addCheck r c).skillPath = r.skillPath ∧
    (addCheck r c).skillName = r.skillName ∧
    (addCheck r c).recommendations = r.recommendations := by
  simp only [addCheck]
  split_ifs <;> exact ⟨rfl, rfl, rfl⟩

theorem addCheck_success (r : Report) (c : Check) :
    (addCheck r c).success = (r.success && !(c.severity = sevError : Bool)) := by
  simp only [addCheck]
  split_ifs with h1 h2 <;> simp [h1]

theorem applyChecks_checks (r : Report) (l : List Check) :
    (applyChecks r l).checks = r.checks ++ l := by
  induction l generalizing r with
  | nil => simp [applyChecks_nil]
  | cons c cs ih => rw [applyChecks_cons, ih, addCheck_checks, List.append_assoc]; rfl

theorem applyChecks_success (r : Report) (l : List Check) :
    (applyChecks r l).success
      = (r.success && !(l.any (fun c => c.severity = sevError))) := by
  induction l generalizing r with
  | nil => simp [applyChecks_nil]
  | cons c cs ih =>
    rw [applyChecks_cons, ih, addCheck_success]
    simp [Bool.and_assoc]

theorem applyChecks_fixed (r : Report) (l : List Check) :
    (applyChecks r l).skillPath = r.skillPath ∧
    (applyChecks r l).skillName = r.skillName ∧
    (applyChecks r l).recommendations = r.recommendations := by
  induction l generalizing r with
  | nil => exact ⟨rfl, rfl, rfl⟩
  | cons c cs ih =>
    rw [applyChecks_cons]
    obtain ⟨h1, h2, h3⟩ := ih (addCheck r c)
    obtain ⟨g1, g2, g3⟩ := addCheck_fixed r c
    exact ⟨h1.trans g1, h2.trans g2, h3.trans g3⟩

/-! ## The evaluation context -/

/-- The host filesystem as seen by the validator: `fs.existsSync`,
`fs.statSync(p).isDirectory()`, and `fs.readFileSync(p, 'utf-8')` (a `none`
read models a thrown read error). -/
structure FS where
  existsSync : Str → Bool
  isDirectory : Str → Bool
  readFileSync : Str → Option Str

/-- Ambient collaborators of one `checkSkill` invocation: the filesystem,
`JSON.parse` (`none` models a parse exception), and the translation helper
`t = (key) => translations[key]?.[''] || key`. -/
structure Ctx where
  fs : FS
  jparse : Str → Option Json
  t : Str → Str

/-! ## The rule table -/

def REQUIRED_FILES : List Str := ["SKILL.md".data]

def RECOMMENDED_FILES : List Str :=
  ["package.json".data, "README.md".data, "polyglot.json".data, ".skill.yml".data]

def BUNDLED_RESOURCES : List Str :=
  ["scripts".data, "references".data, "assets".data]

def packageJsonFields : List Str :=
  ["name".data, "version".data, "description".data, "type".data,
   "main".data, "bin".data]

def moduleType : Str := "module".data

def marketplaceRequiredFields : List Str :=
  ["name".data, "version".data, "description".data, "categories".data,
   "keywords".data, "author".data, "license".data, "repository".data,
   "homepage".data, "bugs".data, "marketplace".data]

def validMarketplaces : List Str :=
  ["skillsmp".data, "daymade".data, "hexrays".data, "smartscope".data]

/-- `getResourceDescription`. -/
def getResourceDescription (r : Str) : Str :=
  if r = "scripts".data then
    "executable code that is repeatedly rewritten or requires deterministic reliability".data
  else if r = "references".data then
    "documentation and reference material to be loaded into context as needed".data
  else if r = "assets".data then
    "files used in the output Claude produces (templates, images, fonts, etc.)".data
  else "additional resources".data

/-- One character of the `nameFormat` character class `[a-z0-9]`. -/
def isKebabChar (c : Char) : Bool :=
  ('a' ≤ c && c ≤ 'z') || ('0' ≤ c && c ≤ '9')

/-- Split at every `-`. -/
def splitDashAux : Str → Str → List Str
  | [], acc => [acc.reverse]
  | c :: cs, acc =>
    if c = '-' then acc.reverse :: splitDashAux cs []
    else splitDashAux cs (c :: acc)

/-- The `nameFormat` regex `^([a-z0-9]+(-[a-z0-9]+)*)$`: nonempty lowercase
alphanumeric segments joined by single hyphens. -/
def isKebab (s : Str) : Bool :=
  (splitDashAux s []).all (fun seg => seg ≠ [] && seg.all isKebabChar)

/- `String(v)` coercion, used by `nameFormat.test(...)` and as the property
key of `packageJson.bin[packageJson.name]`; array elements render by the
JavaScript `Array.prototype.toString` join, where a `null` element renders
empty. -/
mutual

def jsToString : Json → Str
  | .null => "null".data
  | .bool b => if b then "true".data else "false".data
  | .str s => s
  | .arr xs => jsArrStr xs
  | .obj _ => "[object Object]".data

def jsArrStr : List Json → Str
  | [] => []
  | x :: xs =>
    (match x with | .null => [] | y => jsToString y) ++
    (match xs with | [] => [] | _ :: _ => ',' :: jsArrStr xs)

end

/-- Is the JSON value a string (`typeof v === 'string'`, and the values on
which `.startsWith` exists)? -/
def isJStr : Json → Bool
  | .str _ => true
  | _ => false

/-- `[...set].join(sep)`. -/
def joinSepStr (sep : Str) : List Str → Str
  | [] => []
  | [x] => x
  | x :: xs => x ++ sep ++ joinSepStr sep xs

/-- Insertion-ordered de-duplication, as a JavaScript `Set` accumulates. -/
def dedupStrsAux : List Str → List Str → List Str
  | [], _ => []
  | s :: rest, seen =>
    if seen.contains s then dedupStrsAux rest seen
    else s :: dedupStrsAux rest (s :: seen)

def dedupStrs (l : List Str) : List Str := dedupStrsAux l []

/-! ## The `description:` regex

The source matches `/description:\s*(.+)/` against the frontmatter text. The
embedding reproduces the engine's behaviour: scan for an occurrence of the
literal, let `\s*` greedily take whitespace (which may cross line breaks) and
backtrack until `(.+)` can take at least one non-line-terminator character; on
failure resume the scan after the next character. -/

/-- Attempt `\s*(.+)` on the text following one literal occurrence; returns
the captured group. -/
def descValueAfter (t : Str) : Option Str :=
  let rest := t.dropWhile isWsChar
  match rest with
  | [] =>
    match (t.takeWhile isWsChar).reverse.dropWhile isLineTerm with
    | [] => none
    | c :: _ => some [c]
  | _ :: _ => some (rest.takeWhile (fun c => !(isLineTerm c)))

/-- First successful match of `/description:\s*(.+)/`; `some` holds capture
group 1. -/
def descMatch : Str → Option Str
  | [] => none
  | s@(_ :: cs) =>
    if "description:".data.isPrefixOf s then
      match descValueAfter (s.drop 12) with
      | some v => some v
      | none => descMatch cs
    else descMatch cs

/-! ## Check evaluation, step by step -/

/-- A plain `addCheck(cat, name, false, ERROR, msg)` argument tuple. -/
def errCheck (cat nm msg : Str) : Check :=
  { category := cat, name := nm, passed := false, severity := sevError
    message := msg }

/-- `file.replace(/\//g, '_')`. -/
def slashToUnderscore (file : Str) : Str :=
  file.map (fun c => if c = '/' then '_' else c)

/-- Step 1's single check for a missing target directory. -/
def dirCheck (ctx : Ctx) (skillPath : Str) : Check :=
  errCheck "structure".data "directory_exists".data
    (replaceOnce (ctx.t "error_no_skill_dir".data) "{path}".data skillPath)

/-- Step 2: required-file presence. -/
def requiredChecks (ctx : Ctx) (skillPath : Str) : List Check :=
  REQUIRED_FILES.map (fun file =>
    bCheck "structure".data ("file_".data ++ slashToUnderscore file)
      (ctx.fs.existsSync (pjoin skillPath file)) sevError
      (replaceOnce (ctx.t "error_missing_required".data) "{file}".data file))

/-- Step 2.5 on the contents of an existing, readable `SKILL.md`. -/
def skillMdChecks (c : Str) : List Check :=
  let hasFrontmatter := jsStartsWith c "---".data
  let check1 := bCheck "SKILL.md".data "has_frontmatter".data hasFrontmatter
    sevError "SKILL.md must start with YAML frontmatter (---)".data
  let nested : List Check :=
    if hasFrontmatter then
      let frontmatterEnd := jsIndexOf c "---".data 4
      if frontmatterEnd > 0 then
        let ft := jsSubstring c 4 frontmatterEnd.toNat
        let hasDescription := strContains ft "description:".data
        bCheck "SKILL.md".data "frontmatter_has_name".data
            (strContains ft "name:".data) sevError
            "Frontmatter must include \"name:\" field".data ::
        bCheck "SKILL.md".data "frontmatter_has_description".data
            hasDescription sevError
            "Frontmatter must include \"description:\" field".data ::
        bCheck "SKILL.md".data "frontmatter_has_license".data
            (strContains ft "license:".data) sevInfo
            "Consider adding \"license:\" field to frontmatter".data ::
        (if hasDescription then
          match descMatch ft with
          | some v =>
            let d := strLower v
            let describesUsage :=
              strContains d "use when".data ||
              strContains d "use this skill".data ||
              strContains d "should be used".data ||
              strContains d "when to".data
            [bCheck "SKILL.md".data "describes_when_to_use".data describesUsage
              sevWarning
              "Description should explain when to use this skill (e.g., \"Use this skill when...\")".data]
          | none => []
        else [])
      else []
    else []
  let bodyStart := jsIndexOf c "---".data 4
  let hasBody := decide (bodyStart > 0) &&
    decide (0 < (jsTrim (jsSubstringFrom c (bodyStart.toNat + 3))).length)
  check1 :: nested ++
    [bCheck "SKILL.md".data "has_markdown_body".data hasBody sevWarning
      "SKILL.md should have markdown body content after frontmatter".data]

/-- Step 2.5, gated on presence and readability of `SKILL.md`. -/
def skillMdBlock (ctx : Ctx) (skillPath : Str) : List Check :=
  if ctx.fs.existsSync (pjoin skillPath "SKILL.md".data) then
    match ctx.fs.readFileSync (pjoin skillPath "SKILL.md".data) with
    | some c => skillMdChecks c
    | none =>
      [errCheck "SKILL.md".data "readable".data "Could not read SKILL.md".data]
  else []

/-- Step 3: recommended-file presence (warnings only). -/
def recommendedChecks (ctx : Ctx) (skillPath : Str) : List Check :=
  (RECOMMENDED_FILES.map (fun file =>
    if ctx.fs.existsSync (pjoin skillPath file) then []
    else [({ category := "structure".data
             name := "file_".data ++ slashToUnderscore file
             passed := false, severity := sevWarning
             message := replaceOnce (ctx.t "warning_missing_file".data)
               "{file}".data file } : Check)])).flatten

/-- Sequence the faultable sub-check blocks of one `try` body: the checks of
the blocks before the first fault survive, and the flag records whether a
fault (a caught JavaScript `TypeError`) occurred. -/
def runBlocks : List (Except Unit (List Check)) → List Check × Bool
  | [] => ([], false)
  | .error _ :: _ => ([], true)
  | .ok l :: rest =>
    let p := runBlocks rest
    (l ++ p.1, p.2)

/-- Effectful map over the fields of one required-fields loop (the `for`
loop with one `addCheck` per field, any iteration of which may fault). -/
def mapE (f : Str → Except Unit Check) : List Str → Except Unit (List Check)
  | [] => .ok []
  | a :: as => do
    let c ← f a
    let cs ← mapE f as
    pure (c :: cs)

/-- One iteration of the `packageJsonFields` loop
(`packageJson[field] !== undefined`). -/
def pkgFieldCheck (pj : Json) (f : Str) : Except Unit Check :=
  (jGetE pj f).map (fun v =>
    bCheck "package.json".data ("field_".data ++ f) v.isSome sevWarning
      ("Missing field: ".data ++ f))

/-- `if (packageJson.name) { ... nameFormat.test(packageJson.name) ... }`. -/
def pkgNameBlock (pj : Json) : Except Unit (List Check) := do
  let nameV ← jGetE pj "name".data
  match nameV with
  | some v =>
    if jsTruthy v then
      pure [bCheck "package.json".data "name_format".data
        (isKebab (jsToString v)) sevWarning
        "Name should be kebab-case (lowercase with hyphens)".data]
    else pure []
  | none => pure []

/-- `if (packageJson.type) { ... === 'module' ... }`. -/
def pkgTypeBlock (pj : Json) : Except Unit (List Check) := do
  let typeV ← jGetE pj "type".data
  match typeV with
  | some v =>
    if jsTruthy v then
      pure [bCheck "package.json".data "is_module".data (jEqStr v moduleType)
        sevWarning "Type should be \"module\"".data]
    else pure []
  | none => pure []

/-- `if (packageJson.bin) { ... }`: resolve the binding directly when it is a
string, otherwise by lookup keyed by `String(packageJson.name)` (the key is
the literal `undefined` when the name is absent). -/
def pkgBinBlock (pj : Json) : Except Unit (List Check) := do
  let binV ← jGetE pj "bin".data
  match binV with
  | some bv =>
    if jsTruthy bv then do
      let binPath : Option Json ←
        if isJStr bv then pure (some bv)
        else do
          let nameV ← jGetE pj "name".data
          jGetE bv (match nameV with
            | some nv => jsToString nv
            | none => "undefined".data)
      let hasCorrectBin := match binPath with
        | some p => jsTruthy p && jEqStr p "dist/cli/index.js".data
        | none => false
      pure [bCheck "package.json".data "bin_correct".data hasCorrectBin sevInfo
        "bin should point to \"dist/cli/index.js\"".data]
    else pure []
  | none => pure []

/-- The body of the `package.json` `try` block after a successful parse. -/
def pkgSub (pj : Json) : List Check × Bool :=
  runBlocks [mapE (pkgFieldCheck pj) packageJsonFields,
    pkgNameBlock pj, pkgTypeBlock pj, pkgBinBlock pj]

/-- The `valid_json` error of the `package.json` `catch` handler. -/
def pkgCatchCheck (ctx : Ctx) (p : Str) : Check :=
  errCheck "package.json".data "valid_json".data
    (replaceOnce (ctx.t "error_invalid_package_json".data) "{path}".data p)

/-- Step 4: `package.json` validation. -/
def pkgBlock (ctx : Ctx) (skillPath : Str) : List Check :=
  let p := pjoin skillPath "package.json".data
  if ctx.fs.existsSync p then
    match (ctx.fs.readFileSync p).bind ctx.jparse with
    | some pj =>
      let s := pkgSub pj
      s.1 ++ (if s.2 then [pkgCatchCheck ctx p] else [])
    | none => [pkgCatchCheck ctx p]
  else []

/-- `Object.values(polyglot).some(tr => tr[''] !== undefined)`, with the
short-circuit of `.some` (elements after the first hit are not touched). -/
def anyDefaultLang : List Json → Except Unit Bool
  | [] => .ok false
  | tr :: rest => do
    let v ← jGetE tr "".data
    if v.isSome then pure true else anyDefaultLang rest

/-- Collect `Object.keys(translations)` across all values. -/
def collectLangs : List Json → Except Unit (List Str)
  | [] => .ok []
  | tr :: rest => do
    let ks ← jKeysE tr
    let more ← collectLangs rest
    pure (ks ++ more)

/-- The body of the `polyglot.json` `try` block after a successful parse. -/
def polyglotSub (pg : Json) : List Check × Bool :=
  runBlocks [
    (do
      let vals ← jValuesE pg
      let hasDefaultLang ← anyDefaultLang vals
      pure [bCheck "polyglot.json".data "has_default_language".data
        hasDefaultLang sevWarning
        "Each key should have a default (empty string) translation".data]),
    (do
      let vals ← jValuesE pg
      let ls ← collectLangs vals
      let languages := dedupStrs ls
      let hasMultipleLanguages := decide (languages.length > 1)
      pure [{ category := "polyglot.json".data
              name := "multiple_languages".data
              passed := hasMultipleLanguages
              severity := if hasMultipleLanguages then sevSuccess else sevInfo
              message := if hasMultipleLanguages then
                  "Found ".data ++ natStr languages.length ++
                  " languages: ".data ++ joinSepStr ", ".data languages
                else "Consider adding multiple language support".data }])]

/-- Step 5: `polyglot.json` validation. -/
def polyglotBlock (ctx : Ctx) (skillPath : Str) : List Check :=
  let p := pjoin skillPath "polyglot.json".data
  if ctx.fs.existsSync p then
    match (ctx.fs.readFileSync p).bind ctx.jparse with
    | some pg =>
      let s := polyglotSub pg
      s.1 ++ (if s.2 then
        [errCheck "polyglot.json".data "valid_json".data
          "polyglot.json contains invalid JSON".data] else [])
    | none =>
      [errCheck "polyglot.json".data "valid_json".data
        "polyglot.json contains invalid JSON".data]
  else
    [({ category := "polyglot.json".data, name := "exists".data
        passed := false, severity := sevWarning
        message := "Consider using polyglot.json for internationalization".data } : Check)]

/-- Step 6: CLI entry-point validation. (A read failure of an existing file
would abort the source's run with an uncaught exception; reads of existing
files are assumed to succeed.) -/
def cliBlock (ctx : Ctx) (skillPath : Str) : List Check :=
  let p := pjoin skillPath "dist/cli/index.js".data
  if ctx.fs.existsSync p then
    match ctx.fs.readFileSync p with
    | some cliContent =>
      [bCheck "cli".data "has_shebang".data
        (jsStartsWith cliContent "#!/".data) sevInfo
        "CLI file should start with shebang (#!/usr/bin/env node)".data,
       bCheck "cli".data "parses_args".data
        (strContains cliContent "yargs".data ||
         strContains cliContent "argv".data ||
         strContains cliContent "process.argv".data) sevWarning
        "CLI should parse command line arguments".data]
    | none => []
  else []

/-- Step 7: general best-practice checks. -/
def bestPracticesBlock (ctx : Ctx) (skillPath : Str) : List Check :=
  [bCheck "best_practices".data "has_skill_yml".data
    (ctx.fs.existsSync (pjoin skillPath ".skill.yml".data)) sevInfo
    "Consider adding .skill.yml for configuration".data,
   bCheck "best_practices".data "has_locales".data
    (ctx.fs.existsSync (pjoin skillPath "locales".data)) sevInfo
    "Consider adding locales directory for additional translations".data,
   bCheck "best_practices".data "has_src_directory".data
    (ctx.fs.existsSync (pjoin skillPath "src".data)) sevInfo
    "Source code should be in src/ directory".data] ++
  (if ctx.fs.existsSync (pjoin skillPath ".gitignore".data) then
    match ctx.fs.readFileSync (pjoin skillPath ".gitignore".data) with
    | some g =>
      [bCheck "best_practices".data "ignores_dist".data
        (strContains g "/dist".data || strContains g "dist".data) sevWarning
        "Add /dist to .gitignore".data]
    | none => []
  else []) ++
  [bCheck "best_practices".data "has_license_file".data
    (ctx.fs.existsSync (pjoin skillPath "LICENSE".data)) sevWarning
    "Add LICENSE file for proper open source distribution".data,
   bCheck "best_practices".data "has_contributing".data
    (ctx.fs.existsSync (pjoin skillPath "CONTRIBUTING.md".data)) sevInfo
    "Consider adding CONTRIBUTING.md for contributors".data,
   bCheck "best_practices".data "has_changelog".data
    (ctx.fs.existsSync (pjoin skillPath "CHANGELOG.md".data)) sevInfo
    "Consider adding CHANGELOG.md for version tracking".data]

/-- One iteration of the `requiredMarketplaceFields` loop. -/
def mktFieldCheck (mk : Json) (f : Str) : Except Unit Check :=
  (jGetE mk f).map (fun v =>
    bCheck "marketplace".data ("field_".data ++ f) v.isSome sevWarning
      ("Missing marketplace field: ".data ++ f))

/-- `if (marketplace.categories) { Array.isArray(...) && length > 0 }`. -/
def mktCategoriesBlock (mk : Json) : Except Unit (List Check) := do
  let v ← jGetE mk "categories".data
  match v with
  | some cv =>
    if jsTruthy cv then
      pure [bCheck "marketplace".data "has_valid_categories".data
        (match cv with | .arr xs => decide (xs.length > 0) | _ => false)
        sevWarning "categories should be a non-empty array".data]
    else pure []
  | none => pure []

/-- `if (marketplace.keywords) { ... }`. -/
def mktKeywordsBlock (mk : Json) : Except Unit (List Check) := do
  let v ← jGetE mk "keywords".data
  match v with
  | some kv =>
    if jsTruthy kv then
      pure [bCheck "marketplace".data "has_valid_keywords".data
        (match kv with | .arr xs => decide (xs.length > 0) | _ => false)
        sevWarning "keywords should be a non-empty array".data]
    else pure []
  | none => pure []

/-- `if (marketplace.marketplace) { validMarketplaces.includes(...) }`. -/
def mktIdBlock (mk : Json) : Except Unit (List Check) := do
  let v ← jGetE mk "marketplace".data
  match v with
  | some mv =>
    if jsTruthy mv then
      pure [bCheck "marketplace".data "valid_marketplace".data
        (validMarketplaces.any (fun m => jEqStr mv m)) sevWarning
        ("marketplace should be one of: ".data ++
          joinSepStr ", ".data validMarketplaces)]
    else pure []
  | none => pure []

/-- `if (marketplace.repository) { marketplace.repository.startsWith(...) }`:
`.startsWith` on a truthy non-string value is a `TypeError`. -/
def mktRepoBlock (mk : Json) : Except Unit (List Check) := do
  let v ← jGetE mk "repository".data
  match v with
  | some rv =>
    if jsTruthy rv then
      match rv with
      | .str s =>
        pure [bCheck "marketplace".data "valid_repository_url".data
          (jsStartsWith s "https://".data) sevWarning
          "repository should be a valid HTTPS URL".data]
      | _ => .error ()
    else pure []
  | none => pure []

/-- The body of the `marketplace.json` `try` block after a successful parse. -/
def mktSub (mk : Json) : List Check × Bool :=
  runBlocks [mapE (mktFieldCheck mk) marketplaceRequiredFields,
    mktCategoriesBlock mk, mktKeywordsBlock mk, mktIdBlock mk, mktRepoBlock mk]

/-- Step 9: marketplace-metadata validation. -/
def marketplaceBlock (ctx : Ctx) (skillPath : Str) : List Check :=
  let p := pjoin skillPath "marketplace.json".data
  let hasMarketplaceJson := ctx.fs.existsSync p
  bCheck "marketplace".data "has_marketplace_json".data hasMarketplaceJson
    sevInfo "Consider adding marketplace.json for market distribution".data ::
  (if hasMarketplaceJson then
    match (ctx.fs.readFileSync p).bind ctx.jparse with
    | some mk =>
      let s := mktSub mk
      s.1 ++ (if s.2 then
        [errCheck "marketplace".data "valid_json".data
          "marketplace.json contains invalid JSON".data] else [])
    | none =>
      [errCheck "marketplace".data "valid_json".data
        "marketplace.json contains invalid JSON".data]
  else [])

/-- Step 8 (numbered after 9 in the source): bundled-resource directories. -/
def bundledBlock (ctx : Ctx) (skillPath : Str) : List Check :=
  BUNDLED_RESOURCES.map (fun resourceDir =>
    let p := pjoin skillPath resourceDir
    if ctx.fs.existsSync p && ctx.fs.isDirectory p then
      { category := "bundled_resources".data
        name := "has_".data ++ resourceDir
        passed := true, severity := sevSuccess
        message := "Found ".data ++ resourceDir ++ "/ directory".data }
    else
      { category := "bundled_resources".data
        name := "has_".data ++ resourceDir
        passed := true, severity := sevInfo
        message := "Consider adding ".data ++ resourceDir ++ "/ for ".data ++
          getResourceDescription resourceDir })

/-- The trailing `SKILL.md` word-count check (source lines 443–455). -/
def conciseChecks (c : Str) : List Check :=
  let wordCount := (splitWs c).length
  if wordCount > 5000 then
    [({ category := "SKILL.md".data, name := "concise_content".data
        passed := false, severity := sevWarning
        message := "SKILL.md is quite long (".data ++ natStr wordCount ++
          " words). Consider moving detailed reference material to references/ directory per PDF guide (Concise is Key principle)".data } : Check)]
  else
    [({ category := "SKILL.md".data, name := "concise_content".data
        passed := true, severity := sevSuccess
        message := "SKILL.md is concise (".data ++ natStr wordCount ++
          " words)".data } : Check)]

/-- The word-count check, gated on `SKILL.md` presence (the source re-reads
the file here, unguarded; the same content as step 2.5 is returned by the
snapshot filesystem). -/
def conciseBlock (ctx : Ctx) (skillPath : Str) : List Check :=
  if ctx.fs.existsSync (pjoin skillPath "SKILL.md".data) then
    match ctx.fs.readFileSync (pjoin skillPath "SKILL.md".data) with
    | some c => conciseChecks c
    | none => []
  else []

/-- All checks of a run whose target directory exists, in emission order. -/
def allChecks (ctx : Ctx) (skillPath : Str) : List Check :=
  requiredChecks ctx skillPath ++
  skillMdBlock ctx skillPath ++
  recommendedChecks ctx skillPath ++
  pkgBlock ctx skillPath ++
  polyglotBlock ctx skillPath ++
  cliBlock ctx skillPath ++
  bestPracticesBlock ctx skillPath ++
  marketplaceBlock ctx skillPath ++
  bundledBlock ctx skillPath ++
  conciseBlock ctx skillPath

/-- The recommendation synthesis at the end of the run. -/
def recsFor (ctx : Ctx) (skillPath : Str) (r : Report) : List Str :=
  (if r.warnings.length > 0 then
    ["Address warnings to improve skill quality".data] else []) ++
  (if ctx.fs.existsSync (pjoin skillPath "polyglot.json".data) then []
   else ["Add polyglot.json for internationalization support".data]) ++
  (if ctx.fs.existsSync (pjoin skillPath "README.md".data) then []
   else ["Add README.md with documentation".data])

/-- The `results` object returned by `checkSkill` (before rendering): the
existence gate, then the check sequence, then the recommendations. -/
def checkSkillResults (ctx : Ctx) (skillPath : Str) : Report :=
  if ctx.fs.existsSync skillPath = false then
    applyChecks (initReport skillPath) [dirCheck ctx skillPath]
  else
    let r := applyChecks (initReport skillPath) (allChecks ctx skillPath)
    { r with recommendations := r.recommendations ++ recsFor ctx skillPath r }

/-! ## Structured rendering: `JSON.stringify(results, null, 2)` -/

/-- Lowercase hex digit. -/
def hexChar (n : Nat) : Char :=
  if n < 10 then Char.ofNat (48 + n) else Char.ofNat (87 + n)

/-- `JSON.stringify` escaping of one string character. -/
def escChar (c : Char) : Str :=
  if c = '"' then ['\\', '"']
  else if c = '\\' then ['\\', '\\']
  else if c = '\n' then ['\\', 'n']
  else if c = '\r' then ['\\', 'r']
  else if c = '\t' then ['\\', 't']
  else if c = '\x08' then ['\\', 'b']
  else if c = '\x0c' then ['\\', 'f']
  else if c.toNat < 32 then
    ['\\', 'u', '0', '0', hexChar (c.toNat / 16), hexChar (c.toNat % 16)]
  else [c]

def escStr : Str → Str
  | [] => []
  | c :: cs => escChar c ++ escStr cs

/-- A JSON string literal. -/
def quoteStr (s : Str) : Str := '"' :: escStr s ++ ['"']

def spacesN (n : Nat) : Str := List.replicate n ' '

/- The pretty printer of `JSON.stringify(v, null, 2)`: `ind` is the
indentation depth of the value's own line; children indent by two more. -/
mutual

def serJ : Nat → Json → Str
  | _, .null => "null".data
  | _, .bool b => if b then "true".data else "false".data
  | _, .str s => quoteStr s
  | _, .arr [] => ['[', ']']
  | ind, .arr (x :: xs) =>
    '[' :: '\n' :: serItems (ind + 2) x xs ++ '\n' :: spacesN ind ++ [']']
  | _, .obj [] => ['\x7b', '\x7d']
  | ind, .obj (m :: ms) =>
    '\x7b' :: '\n' :: serMembers (ind + 2) m ms ++ '\n' :: spacesN ind ++ ['\x7d']
  termination_by _ind j => sizeOf j

def serItems : Nat → Json → List Json → Str
  | ind, x, [] => spacesN ind ++ serJ ind x
  | ind, x, y :: ys =>
    spacesN ind ++ serJ ind x ++ ',' :: '\n' :: serItems ind y ys
  termination_by _ind x xs => 1 + sizeOf x + sizeOf xs

def serMembers : Nat → (Str × Json) → List (Str × Json) → Str
  | ind, (k, v), [] => spacesN ind ++ quoteStr k ++ ':' :: ' ' :: serJ ind v
  | ind, (k, v), m2 :: ms =>
    spacesN ind ++ quoteStr k ++ ':' :: ' ' :: serJ ind v ++
      ',' :: '\n' :: serMembers ind m2 ms
  termination_by _ind m ms => 1 + sizeOf m + sizeOf ms

end

/-- The JSON value of one CheckResult (object key insertion order of
`addCheck`). -/
def checkToJson (c : Check) : Json :=
  .obj [("category".data, .str c.category),
        ("name".data, .str c.name),
        ("passed".data, .bool c.passed),
        ("severity".data, .str c.severity),
        ("message".data, .str c.message)]

/-- The JSON value of the whole `results` object (key insertion order of its
literal). -/
def reportToJson (r : Report) : Json :=
  .obj [("success".data, .bool r.success),
        ("skillPath".data, .str r.skillPath),
        ("skillName".data, .str r.skillName),
        ("checks".data, .arr (r.checks.map checkToJson)),
        ("errors".data, .arr (r.errors.map checkToJson)),
        ("warnings".data, .arr (r.warnings.map checkToJson)),
        ("recommendations".data, .arr (r.recommendations.map Json.str))]

/-! ## Text and markdown rendering -/

/-- `formatText`. -/
def formatText (r : Report) (t : Str → Str) : Str :=
  let head : List Str :=
    ["🔍 Skill Validation Results".data,
     "📁 Path: ".data ++ r.skillPath,
     "📦 Name: ".data ++ r.skillName,
     []]
  let statusLine : List Str :=
    if r.success then ["✅ ".data ++ t "validation_passed".data]
    else ["❌ ".data ++ replaceOnce (t "validation_failed".data) "{count}".data
      (natStr r.errors.length)]
  let warnLine : List Str :=
    if r.warnings.length > 0 then
      ["⚠️  ".data ++ replaceOnce (t "validation_warnings".data) "{count}".data
        (natStr r.warnings.length)]
    else []
  let summaryHead : List Str :=
    [[], "📊 Checks Summary:".data, List.replicate 50 '─']
  let checkLines : List Str :=
    (r.checks.map (fun c =>
      let icon := if c.passed then "✅".data
        else if c.severity = sevWarning then "⚠️".data else "❌".data
      (icon ++ " [".data ++ c.category ++ "] ".data ++ c.name) ::
      (if c.message ≠ [] ∧ c.passed = false then ["   ".data ++ c.message]
       else []))).flatten
  let recLines : List Str :=
    if r.recommendations.length > 0 then
      [[], "💡 Recommendations:".data] ++
        r.recommendations.map (fun x => "  • ".data ++ x)
    else []
  joinSepStr "\n".data
    (head ++ statusLine ++ warnLine ++ summaryHead ++ checkLines ++ recLines)

/-- `formatMarkdown`. -/
def formatMarkdown (r : Report) (t : Str → Str) : Str :=
  let head : List Str :=
    ["# 🔍 Skill Validation Report".data, [],
     "## ".data ++ t "header_summary".data, [],
     "- **Skill**: ".data ++ r.skillName,
     "- **Path**: `".data ++ r.skillPath ++ "`".data,
     "- **Status**: ".data ++
       (if r.success then "✅ Passed".data else "❌ Failed".data),
     "- **Errors**: ".data ++ natStr r.errors.length,
     "- **Warnings**: ".data ++ natStr r.warnings.length,
     [],
     "## ".data ++ t "header_structure".data, []]
  let structureLines : List Str :=
    (r.checks.filter (fun c => c.category = "structure".data)).map (fun c =>
      "- ".data ++ (if c.passed then "✅".data else "❌".data) ++ " `".data ++
        replaceOnce c.name "file_".data [] ++ "`".data)
  let bpLines : List Str :=
    (r.checks.filter (fun c =>
      c.category = "best_practices".data ∨
      c.category = "package.json".data)).map (fun c =>
      let glyph := if c.severity = sevSuccess then "✅".data
        else if c.severity = sevWarning then "⚠️".data else "❌".data
      "- ".data ++ glyph ++ " **".data ++ c.name ++ "**: ".data ++
        (if c.message ≠ [] then c.message else "OK".data))
  let recLines : List Str :=
    if r.recommendations.length > 0 then
      [[], "## ".data ++ t "header_recommendations".data, []] ++
        r.recommendations.map (fun x => "- ".data ++ x)
    else []
  joinSepStr "\n".data
    (head ++ structureLines ++
     [[], "## ".data ++ t "header_best_practices".data, []] ++
     bpLines ++ recLines)

/-- `formatOutput(results, format, translations)`. -/
def formatOutput (r : Report) (format : Str) (t : Str → Str) : Str :=
  if format = "json".data then serJ 0 (reportToJson r)
  else if format = "markdown".data then formatMarkdown r t
  else formatText r t

/-- The full `checkSkill(skillPath, options)` entry point: evaluation followed
by rendering. -/
def checkSkill (ctx : Ctx) (skillPath : Str) (format : Str) : Str :=
  formatOutput (checkSkillResults ctx skillPath) format ctx.t

/-! ## Parsing model of `JSON.parse` (over the number-free fragment) -/

/-- JSON insignificant whitespace. -/
def isJsonWs (c : Char) : Bool :=
  c = ' ' || c = '\t' || c = '\n' || c = '\r'

def dropWs (s : Str) : Str := s.dropWhile isJsonWs

/-- Value of one hex digit. -/
def hexVal (c : Char) : Option Nat :=
  if '0' ≤ c ∧ c ≤ '9' then some (c.toNat - 48)
  else if 'a' ≤ c ∧ c ≤ 'f' then some (c.toNat - 87)
  else if 'A' ≤ c ∧ c ≤ 'F' then some (c.toNat - 55)
  else none

/- Parse the body of a string literal after the opening quote, returning the
unescaped contents and the remainder after the closing quote; `parseEsc`
handles the character after a backslash. -/
mutual

def parseStrBody : Str → Option (Str × Str)
  | [] => none
  | c :: rest =>
    if c = '"' then some ([], rest)
    else if c = '\\' then parseEsc rest
    else (parseStrBody rest).map (fun p => (c :: p.1, p.2))

def parseEsc : Str → Option (Str × Str)
  | [] => none
  | e :: r2 =>
    if e = '"' then (parseStrBody r2).map (fun p => ('"' :: p.1, p.2))
    else if e = '\\' then (parseStrBody r2).map (fun p => ('\\' :: p.1, p.2))
    else if e = '/' then (parseStrBody r2).map (fun p => ('/' :: p.1, p.2))
    else if e = 'n' then (parseStrBody r2).map (fun p => ('\n' :: p.1, p.2))
    else if e = 'r' then (parseStrBody r2).map (fun p => ('\r' :: p.1, p.2))
    else if e = 't' then (parseStrBody r2).map (fun p => ('\t' :: p.1, p.2))
    else if e = 'b' then (parseStrBody r2).map (fun p => ('\x08' :: p.1, p.2))
    else if e = 'f' then (parseStrBody r2).map (fun p => ('\x0c' :: p.1, p.2))
    else if e = 'u' then
      match r2 with
      | h1 :: h2 :: h3 :: h4 :: r3 => do
        let v1 ← hexVal h1
        let v2 ← hexVal h2
        let v3 ← hexVal h3
        let v4 ← hexVal h4
        let p ← parseStrBody r3
        pure (Char.ofNat (((v1 * 16 + v2) * 16 + v3) * 16 + v4) :: p.1, p.2)
      | _ => none
    else none

end

mutual

/-- Parse one JSON value (fuel-indexed recursion). -/
def parseV : Nat → Str → Option (Json × Str)
  | 0, _ => none
  | f + 1, s =>
    match dropWs s with
    | 'n' :: 'u' :: 'l' :: 'l' :: r => some (.null, r)
    | 't' :: 'r' :: 'u' :: 'e' :: r => some (.bool true, r)
    | 'f' :: 'a' :: 'l' :: 's' :: 'e' :: r => some (.bool false, r)
    | '"' :: r => (parseStrBody r).map (fun p => (.str p.1, p.2))
    | '[' :: r =>
      (match dropWs r with
       | ']' :: r2 => some (.arr [], r2)
       | _ => (parseElems f r).map (fun p => (.arr p.1, p.2)))
    | '\x7b' :: r =>
      (match dropWs r with
       | '\x7d' :: r2 => some (.obj [], r2)
       | _ => (parseMems f r).map (fun p => (.obj p.1, p.2)))
    | _ => none

/-- Parse a nonempty comma-separated element list up to `]`. -/
def parseElems : Nat → Str → Option (List Json × Str)
  | 0, _ => none
  | f + 1, s => do
    let (v, r) ← parseV f s
    match dropWs r with
    | ',' :: r2 => do
      let (vs, r3) ← parseElems f r2
      pure (v :: vs, r3)
    | ']' :: r2 => pure ([v], r2)
    | _ => none

/-- Parse a nonempty comma-separated member list up to the closing brace. -/
def parseMems : Nat → Str → Option (List (Str × Json) × Str)
  | 0, _ => none
  | f + 1, s =>
    match dropWs s with
    | '"' :: r => do
      let (k, r1) ← parseStrBody r
      match dropWs r1 with
      | ':' :: r2 => do
        let (v, r3) ← parseV f r2
        match dropWs r3 with
        | ',' :: r4 => do
          let (ms, r5) ← parseMems f r4
          pure ((k, v) :: ms, r5)
        | '\x7d' :: r4 => pure ([(k, v)], r4)
        | _ => none
      | _ => none
    | _ => none

end

/-- `JSON.parse` over a full document: one value and nothing but trailing
whitespace. -/
def parseJsonText (s : Str) : Option Json :=
  match parseV (s.length + 1) s with
  | some (j, rest) => if dropWs rest = [] then some j else none
  | none => none

/-- Recover a CheckResult from its JSON value. -/
def checkFromJson (j : Json) : Option Check :=
  match j with
  | .obj [(k1, .str cat), (k2, .str nm), (k3, .bool p), (k4, .str sev),
          (k5, .str msg)] =>
    if k1 = "category".data ∧ k2 = "name".data ∧ k3 = "passed".data ∧
       k4 = "severity".data ∧ k5 = "message".data then
      some { category := cat, name := nm, passed := p, severity := sev
             message := msg }
    else none
  | _ => none

def asStr : Json → Option Str
  | .str s => some s
  | _ => none

/-- Recover a list of CheckResults from JSON values. -/
def mapOC : List Json → Option (List Check)
  | [] => some []
  | j :: js => do
    let c ← checkFromJson j
    let cs ← mapOC js
    pure (c :: cs)

/-- Recover a list of strings from JSON values. -/
def mapOS : List Json → Option (List Str)
  | [] => some []
  | j :: js => do
    let s ← asStr j
    let ss ← mapOS js
    pure (s :: ss)

/-- Recover a ValidationReport from its JSON value. -/
def reportFromJson (j : Json) : Option Report :=
  match j with
  | .obj [(k1, .bool sc), (k2, .str sp), (k3, .str sn), (k4, .arr cs),
          (k5, .arr es), (k6, .arr ws), (k7, .arr rs)] =>
    if k1 = "success".data ∧ k2 = "skillPath".data ∧ k3 = "skillName".data ∧
       k4 = "checks".data ∧ k5 = "errors".data ∧ k6 = "warnings".data ∧
       k7 = "recommendations".data then do
      let cs2 ← mapOC cs
      let es2 ← mapOC es
      let ws2 ← mapOC ws
      let rs2 ← mapOS rs
      pure { success := sc, skillPath := sp, skillName := sn, checks := cs2
             errors := es2, warnings := ws2, recommendations := rs2 }
    else none
  | _ => none

/-- Parse the structured rendering back into a ValidationReport. -/
def parseReport (s : Str) : Option Report := (parseJsonText s).bind reportFromJson

/-! ## Aggregator lemmas -/

theorem addCheck_errors (r : Report) (c : Check) :
    (addCheck r c).errors
      = r.errors ++ (if c.severity = sevError then [c] else []) := by
  simp only [addCheck]
  split_ifs with h1 h2 <;> simp [h1]

theorem addCheck_warnings (r : Report) (c : Check) :
    (addCheck r c).warnings
      = r.warnings ++ (if c.severity = sevWarning then [c] else []) := by
  have hd1 : ¬ sevError = sevWarning := by decide
  have hd2 : ¬ sevWarning = sevError := by decide
  by_cases h1 : c.severity = sevError
  · have hne : ¬ c.severity = sevWarning := by rw [h1]; decide
    simp [addCheck, h1, hne, hd1]
  · by_cases h2 : c.severity = sevWarning
    · simp [addCheck, h1, h2, hd2]
    · simp [addCheck, h1, h2]

theorem applyChecks_errors (r : Report) (l : List Check) :
    (applyChecks r l).errors
      = r.errors ++ l.filter (fun c => c.severity = sevError) := by
  induction l generalizing r with
  | nil => simp [applyChecks_nil]
  | cons c cs ih =>
    rw [applyChecks_cons, ih, addCheck_errors]
    by_cases h : c.severity = sevError <;> simp [h, List.filter_cons]

theorem applyChecks_warnings (r : Report) (l : List Check) :
    (applyChecks r l).warnings
      = r.warnings ++ l.filter (fun c => c.severity = sevWarning) := by
  induction l generalizing r with
  | nil => simp [applyChecks_nil]
  | cons c cs ih =>
    rw [applyChecks_cons, ih, addCheck_warnings]
    by_cases h : c.severity = sevWarning <;> simp [h, List.filter_cons]

/-! ## Per-check facts: severity/passed consistency and category tags -/

/-- The claimed `severity`/`passed` invariant of one check. -/
def sevOk (c : Check) : Prop :=
  (c.severity = sevError → c.passed = false) ∧
  (c.severity = sevSuccess → c.passed = true)

/-- The invariant together with the emitting step's category tag. -/
def okCat (cat : Str) (c : Check) : Prop := sevOk c ∧ c.category = cat

theorem okCat_bCheck (cat nm : Str) (cond : Bool) (sevF msg : Str)
    (h : sevF ≠ sevSuccess) : okCat cat (bCheck cat nm cond sevF msg) := by
  cases cond with
  | false => exact ⟨⟨fun _ => rfl, fun hs => absurd hs h⟩, rfl⟩
  | true =>
    refine ⟨⟨fun hs => ?_, fun _ => rfl⟩, rfl⟩
    rw [show (bCheck cat nm true sevF msg).severity = sevSuccess from rfl] at hs
    exact absurd hs (by decide)

theorem okCat_errCheck (cat nm msg : Str) : okCat cat (errCheck cat nm msg) := by
  refine ⟨⟨fun _ => rfl, fun hs => ?_⟩, rfl⟩
  rw [show (errCheck cat nm msg).severity = sevError from rfl] at hs
  exact absurd hs (by decide)

theorem allP_nil (P : Check → Prop) : ∀ c ∈ ([] : List Check), P c := by simp

theorem allP_cons {P : Check → Prop} {x : Check} {l : List Check}
    (hx : P x) (hl : ∀ c ∈ l, P c) : ∀ c ∈ x :: l, P c := by
  intro c hc
  rcases List.mem_cons.mp hc with rfl | h
  · exact hx
  · exact hl _ h

theorem allP_append {P : Check → Prop} {l1 l2 : List Check}
    (h1 : ∀ c ∈ l1, P c) (h2 : ∀ c ∈ l2, P c) : ∀ c ∈ l1 ++ l2, P c := by
  intro c hc
  rcases List.mem_append.mp hc with h | h
  · exact h1 _ h
  · exact h2 _ h

theorem allP_ite {P : Check → Prop} (b : Prop) [Decidable b]
    {l1 l2 : List Check} (h1 : ∀ c ∈ l1, P c) (h2 : ∀ c ∈ l2, P c) :
    ∀ c ∈ (if b then l1 else l2), P c := by
  split
  · exact h1
  · exact h2

theorem allP_map {P : Check → Prop} {α : Type} (f : α → Check) (l : List α)
    (h : ∀ a ∈ l, P (f a)) : ∀ c ∈ l.map f, P c := by
  intro c hc
  rcases List.mem_map.mp hc with ⟨a, ha, rfl⟩
  exact h a ha

theorem allP_flatten {P : Check → Prop} (ls : List (List Check))
    (h : ∀ l ∈ ls, ∀ c ∈ l, P c) : ∀ c ∈ ls.flatten, P c := by
  intro c hc
  rcases List.mem_flatten.mp hc with ⟨l, hl, hcl⟩
  exact h l hl c hcl

theorem okCat_failed (cat nm sev msg : Str) (h : sev ≠ sevSuccess) :
    okCat cat { category := cat, name := nm, passed := false, severity := sev
                message := msg } :=
  ⟨⟨fun _ => rfl, fun hs => absurd hs h⟩, rfl⟩

theorem okCat_passed (cat nm sev msg : Str) (h : sev ≠ sevError) :
    okCat cat { category := cat, name := nm, passed := true, severity := sev
                message := msg } :=
  ⟨⟨fun hs => absurd hs h, fun _ => rfl⟩, rfl⟩

theorem requiredChecks_ok (ctx : Ctx) (p : Str) :
    ∀ c ∈ requiredChecks ctx p, okCat "structure".data c := by
  apply allP_map
  intro a _
  exact okCat_bCheck _ _ _ _ _ (by decide)

theorem skillMdChecks_ok (s : Str) :
    ∀ c ∈ skillMdChecks s, okCat "SKILL.md".data c := by
  simp only [skillMdChecks]
  refine allP_cons (okCat_bCheck _ _ _ _ _ (by decide)) (allP_append ?_ ?_)
  · refine allP_ite _ (allP_ite _ ?_ (allP_nil _)) (allP_nil _)
    refine allP_cons (okCat_bCheck _ _ _ _ _ (by decide))
      (allP_cons (okCat_bCheck _ _ _ _ _ (by decide))
        (allP_cons (okCat_bCheck _ _ _ _ _ (by decide))
          (allP_ite _ ?_ (allP_nil _))))
    cases hm : descMatch (jsSubstring s 4 (jsIndexOf s "---".data 4).toNat) with
    | none => exact allP_nil _
    | some v => exact allP_cons (okCat_bCheck _ _ _ _ _ (by decide)) (allP_nil _)
  · exact allP_cons (okCat_bCheck _ _ _ _ _ (by decide)) (allP_nil _)

theorem skillMdBlock_ok (ctx : Ctx) (p : Str) :
    ∀ c ∈ skillMdBlock ctx p, okCat "SKILL.md".data c := by
  simp only [skillMdBlock]
  refine allP_ite _ ?_ (allP_nil _)
  cases hr : ctx.fs.readFileSync (pjoin p "SKILL.md".data) with
  | some c => exact skillMdChecks_ok c
  | none => exact allP_cons (okCat_errCheck _ _ _) (allP_nil _)

theorem recommendedChecks_ok (ctx : Ctx) (p : Str) :
    ∀ c ∈ recommendedChecks ctx p, okCat "structure".data c := by
  apply allP_flatten
  intro l hl
  rcases List.mem_map.mp hl with ⟨a, _, rfl⟩
  exact allP_ite _ (allP_nil _)
    (allP_cons (okCat_failed _ _ _ _ (by decide)) (allP_nil _))

theorem runBlocks_ok {P : Check → Prop} (bs : List (Except Unit (List Check)))
    (h : ∀ b ∈ bs, ∀ l, b = .ok l → ∀ c ∈ l, P c) :
    ∀ c ∈ (runBlocks bs).1, P c := by
  induction bs with
  | nil => exact allP_nil _
  | cons b rest ih =>
    cases b with
    | error e => simp only [runBlocks]; exact allP_nil _
    | ok l =>
      simp only [runBlocks]
      exact allP_append (h _ (List.mem_cons_self _ _) l rfl)
        (ih (fun b hb => h b (List.mem_cons_of_mem _ hb)))

theorem mapE_ok {f : Str → Except Unit Check} {P : Check → Prop}
    (hf : ∀ a c, f a = .ok c → P c) :
    ∀ (as : List Str) (l : List Check), mapE f as = .ok l → ∀ c ∈ l, P c := by
  intro as
  induction as with
  | nil =>
    intro l h
    simp only [mapE] at h
    cases h
    exact allP_nil _
  | cons a as ih =>
    intro l h
    simp only [mapE] at h
    cases hfa : f a with
    | error e =>
      rw [hfa] at h
      simp only [bind, Except.bind] at h
      cases h
    | ok c =>
      rw [hfa] at h
      simp only [bind, Except.bind] at h
      cases hme : mapE f as with
      | error e =>
        rw [hme] at h
        simp only [Functor.map, Except.map] at h
        cases h
      | ok cs =>
        rw [hme] at h
        simp only [Functor.map, Except.map] at h
        cases h
        exact allP_cons (hf a c hfa) (ih cs hme)

/-- The recurring shape `if (j[k]) { addCheck(one check about j[k]) }` of the
field-conditional sub-checks. -/
theorem guardBlock_ok {pj : Json} {k : Str} {cond : Json → Bool}
    {mk : Json → Check} {P : Check → Prop} (hmk : ∀ v, P (mk v))
    (l : List Check)
    (h : (do
      let ov ← jGetE pj k
      match ov with
      | some v => if cond v then pure [mk v] else pure ([] : List Check)
      | none => pure []) = Except.ok l) :
    ∀ c ∈ l, P c := by
  cases hpj : jGetE pj k with
  | error e =>
    rw [hpj] at h
    simp only [bind, Except.bind] at h
    cases h
  | ok ov =>
    rw [hpj] at h
    simp only [bind, Except.bind] at h
    cases ov with
    | none =>
      simp only [pure, Except.pure] at h
      cases h
      exact allP_nil _
    | some v =>
      by_cases hc : cond v = true
      · simp [hc, pure, Except.pure] at h
        cases h
        exact allP_cons (hmk v) (allP_nil _)
      · simp [hc, pure, Except.pure] at h
        cases h
        exact allP_nil _

theorem pkgFieldCheck_ok (pj : Json) (f : Str) (c : Check)
    (h : pkgFieldCheck pj f = .ok c) : okCat "package.json".data c := by
  unfold pkgFieldCheck at h
  cases pj <;> simp only [jGetE, Except.map] at h <;> cases h <;>
    exact okCat_bCheck _ _ _ _ _ (by decide)

theorem pkgNameBlock_ok (pj : Json) (l : List Check)
    (h : pkgNameBlock pj = .ok l) : ∀ c ∈ l, okCat "package.json".data c := by
  unfold pkgNameBlock at h
  exact guardBlock_ok (fun v => okCat_bCheck _ _ _ _ _ (by decide)) l h

theorem pkgTypeBlock_ok (pj : Json) (l : List Check)
    (h : pkgTypeBlock pj = .ok l) : ∀ c ∈ l, okCat "package.json".data c := by
  unfold pkgTypeBlock at h
  exact guardBlock_ok (fun v => okCat_bCheck _ _ _ _ _ (by decide)) l h

theorem pkgBinBlock_ok (pj : Json) (l : List Check)
    (h : pkgBinBlock pj = .ok l) : ∀ c ∈ l, okCat "package.json".data c := by
  unfold pkgBinBlock at h
  cases hpj : jGetE pj "bin".data with
  | error e => rw [hpj] at h; simp only [bind, Except.bind] at h; cases h
  | ok ov =>
    rw [hpj] at h
    simp only [bind, Except.bind] at h
    cases ov with
    | none => simp only [pure, Except.pure] at h; cases h; exact allP_nil _
    | some bv =>
      by_cases ht : jsTruthy bv = true
      · simp only [ht, if_true] at h
        cases bv with
        | null => exact absurd ht (by simp [jsTruthy])
        | str s =>
          simp only [isJStr, if_true, bind, Except.bind, pure, Except.pure] at h
          cases h
          exact allP_cons (okCat_bCheck _ _ _ _ _ (by decide)) (allP_nil _)
        | bool b =>
          cases hn : jGetE pj "name".data with
          | error e =>
            rw [hn] at h
            simp [isJStr, bind, Except.bind] at h
          | ok nv =>
            rw [hn] at h
            simp only [isJStr, Bool.false_eq_true, if_false, bind, Except.bind,
              jGetE, pure, Except.pure] at h
            cases h
            exact allP_cons (okCat_bCheck _ _ _ _ _ (by decide)) (allP_nil _)
        | arr xs =>
          cases hn : jGetE pj "name".data with
          | error e =>
            rw [hn] at h
            simp [isJStr, bind, Except.bind] at h
          | ok nv =>
            rw [hn] at h
            simp only [isJStr, Bool.false_eq_true, if_false, bind, Except.bind,
              jGetE, pure, Except.pure] at h
            cases h
            exact allP_cons (okCat_bCheck _ _ _ _ _ (by decide)) (allP_nil _)
        | obj fs2 =>
          cases hn : jGetE pj "name".data with
          | error e =>
            rw [hn] at h
            simp [isJStr, bind, Except.bind] at h
          | ok nv =>
            rw [hn] at h
            simp only [isJStr, Bool.false_eq_true, if_false, bind, Except.bind,
              jGetE, pure, Except.pure] at h
            cases h
            exact allP_cons (okCat_bCheck _ _ _ _ _ (by decide)) (allP_nil _)
      · simp only [ht, Bool.false_eq_true, if_false, pure, Except.pure] at h
        cases h
        exact allP_nil _

theorem pkgSub_ok (pj : Json) : ∀ c ∈ (pkgSub pj).1, okCat "package.json".data c := by
  unfold pkgSub
  apply runBlocks_ok
  intro b hb l hbl
  simp only [List.mem_cons, List.not_mem_nil, or_false] at hb
  rcases hb with rfl | rfl | rfl | rfl
  · exact mapE_ok (fun a c hc => pkgFieldCheck_ok pj a c hc) _ l hbl
  · exact pkgNameBlock_ok pj l hbl
  · exact pkgTypeBlock_ok pj l hbl
  · exact pkgBinBlock_ok pj l hbl

theorem pkgBlock_ok (ctx : Ctx) (p : Str) :
    ∀ c ∈ pkgBlock ctx p, okCat "package.json".data c := by
  simp only [pkgBlock]
  refine allP_ite _ ?_ (allP_nil _)
  cases hj : (ctx.fs.readFileSync (pjoin p "package.json".data)).bind ctx.jparse with
  | none => exact allP_cons (okCat_errCheck _ _ _) (allP_nil _)
  | some pj =>
    refine allP_append (pkgSub_ok pj) (allP_ite _ ?_ (allP_nil _))
    exact allP_cons (okCat_errCheck _ _ _) (allP_nil _)

theorem polyglotSub_ok (pg : Json) :
    ∀ c ∈ (polyglotSub pg).1, okCat "polyglot.json".data c := by
  unfold polyglotSub
  apply runBlocks_ok
  intro b hb l hbl
  simp only [List.mem_cons, List.not_mem_nil, or_false] at hb
  rcases hb with rfl | rfl
  · cases hv : jValuesE pg with
    | error e => rw [hv] at hbl; simp only [bind, Except.bind] at hbl; cases hbl
    | ok vals =>
      rw [hv] at hbl
      simp only [bind, Except.bind] at hbl
      cases hd : anyDefaultLang vals with
      | error e => rw [hd] at hbl; cases hbl
      | ok b2 =>
        rw [hd] at hbl
        simp only [pure, Except.pure] at hbl
        cases hbl
        exact allP_cons (okCat_bCheck _ _ _ _ _ (by decide)) (allP_nil _)
  · cases hv : jValuesE pg with
    | error e => rw [hv] at hbl; simp only [bind, Except.bind] at hbl; cases hbl
    | ok vals =>
      rw [hv] at hbl
      simp only [bind, Except.bind] at hbl
      cases hl2 : collectLangs vals with
      | error e => rw [hl2] at hbl; cases hbl
      | ok ls =>
        rw [hl2] at hbl
        simp only [pure, Except.pure] at hbl
        cases hbl
        by_cases hm : (dedupStrs ls).length > 1
        · refine allP_cons ?_ (allP_nil _)
          have : decide ((dedupStrs ls).length > 1) = true := by simp [hm]
          rw [this]
          exact okCat_passed _ _ _ _ (by decide)
        · refine allP_cons ?_ (allP_nil _)
          have : decide ((dedupStrs ls).length > 1) = false := by simp [hm]
          rw [this]
          exact okCat_failed _ _ _ _ (by decide)

theorem polyglotBlock_ok (ctx : Ctx) (p : Str) :
    ∀ c ∈ polyglotBlock ctx p, okCat "polyglot.json".data c := by
  simp only [polyglotBlock]
  refine allP_ite _ ?_
    (allP_cons (okCat_failed _ _ _ _ (by decide)) (allP_nil _))
  cases hj : (ctx.fs.readFileSync (pjoin p "polyglot.json".data)).bind ctx.jparse with
  | none => exact allP_cons (okCat_errCheck _ _ _) (allP_nil _)
  | some pg =>
    refine allP_append (polyglotSub_ok pg) (allP_ite _ ?_ (allP_nil _))
    exact allP_cons (okCat_errCheck _ _ _) (allP_nil _)

theorem cliBlock_ok (ctx : Ctx) (p : Str) :
    ∀ c ∈ cliBlock ctx p, okCat "cli".data c := by
  simp only [cliBlock]
  refine allP_ite _ ?_ (allP_nil _)
  cases hr : ctx.fs.readFileSync (pjoin p "dist/cli/index.js".data) with
  | some c =>
    exact allP_cons (okCat_bCheck _ _ _ _ _ (by decide))
      (allP_cons (okCat_bCheck _ _ _ _ _ (by decide)) (allP_nil _))
  | none => exact allP_nil _

theorem bestPracticesBlock_ok (ctx : Ctx) (p : Str) :
    ∀ c ∈ bestPracticesBlock ctx p, okCat "best_practices".data c := by
  simp only [bestPracticesBlock, List.cons_append, List.nil_append]
  refine allP_cons (okCat_bCheck _ _ _ _ _ (by decide))
    (allP_cons (okCat_bCheck _ _ _ _ _ (by decide))
      (allP_cons (okCat_bCheck _ _ _ _ _ (by decide))
        (allP_append (allP_ite _ ?_ (allP_nil _))
          (allP_cons (okCat_bCheck _ _ _ _ _ (by decide))
            (allP_cons (okCat_bCheck _ _ _ _ _ (by decide))
              (allP_cons (okCat_bCheck _ _ _ _ _ (by decide)) (allP_nil _)))))))
  cases hr : ctx.fs.readFileSync (pjoin p ".gitignore".data) with
  | some g => exact allP_cons (okCat_bCheck _ _ _ _ _ (by decide)) (allP_nil _)
  | none => exact allP_nil _

theorem mktFieldCheck_ok (mk : Json) (f : Str) (c : Check)
    (h : mktFieldCheck mk f = .ok c) : okCat "marketplace".data c := by
  unfold mktFieldCheck at h
  cases mk <;> simp only [jGetE, Except.map] at h <;> cases h <;>
    exact okCat_bCheck _ _ _ _ _ (by decide)

theorem mktCategoriesBlock_ok (mk : Json) (l : List Check)
    (h : mktCategoriesBlock mk = .ok l) : ∀ c ∈ l, okCat "marketplace".data c := by
  unfold mktCategoriesBlock at h
  exact guardBlock_ok (fun v => okCat_bCheck _ _ _ _ _ (by decide)) l h

theorem mktKeywordsBlock_ok (mk : Json) (l : List Check)
    (h : mktKeywordsBlock mk = .ok l) : ∀ c ∈ l, okCat "marketplace".data c := by
  unfold mktKeywordsBlock at h
  exact guardBlock_ok (fun v => okCat_bCheck _ _ _ _ _ (by decide)) l h

theorem mktIdBlock_ok (mk : Json) (l : List Check)
    (h : mktIdBlock mk = .ok l) : ∀ c ∈ l, okCat "marketplace".data c := by
  unfold mktIdBlock at h
  exact guardBlock_ok (fun v => okCat_bCheck _ _ _ _ _ (by decide)) l h

theorem mktRepoBlock_ok (mk : Json) (l : List Check)
    (h : mktRepoBlock mk = .ok l) : ∀ c ∈ l, okCat "marketplace".data c := by
  unfold mktRepoBlock at h
  cases hpj : jGetE mk "repository".data with
  | error e => rw [hpj] at h; simp only [bind, Except.bind] at h; cases h
  | ok ov =>
    rw [hpj] at h
    simp only [bind, Except.bind] at h
    cases ov with
    | none => simp only [pure, Except.pure] at h; cases h; exact allP_nil _
    | some rv =>
      by_cases ht : jsTruthy rv = true
      · simp only [ht, if_true] at h
        cases rv with
        | null => exact absurd ht (by simp [jsTruthy])
        | bool b => cases h
        | arr xs => cases h
        | obj fs2 => cases h
        | str s =>
          simp only [pure, Except.pure] at h
          cases h
          exact allP_cons (okCat_bCheck _ _ _ _ _ (by decide)) (allP_nil _)
      · simp only [ht, Bool.false_eq_true, if_false, pure, Except.pure] at h
        cases h
        exact allP_nil _

theorem mktSub_ok (mk : Json) : ∀ c ∈ (mktSub mk).1, okCat "marketplace".data c := by
  unfold mktSub
  apply runBlocks_ok
  intro b hb l hbl
  simp only [List.mem_cons, List.not_mem_nil, or_false] at hb
  rcases hb with rfl | rfl | rfl | rfl | rfl
  · exact mapE_ok (fun a c hc => mktFieldCheck_ok mk a c hc) _ l hbl
  · exact mktCategoriesBlock_ok mk l hbl
  · exact mktKeywordsBlock_ok mk l hbl
  · exact mktIdBlock_ok mk l hbl
  · exact mktRepoBlock_ok mk l hbl

theorem marketplaceBlock_ok (ctx : Ctx) (p : Str) :
    ∀ c ∈ marketplaceBlock ctx p, okCat "marketplace".data c := by
  simp only [marketplaceBlock]
  refine allP_cons (okCat_bCheck _ _ _ _ _ (by decide)) (allP_ite _ ?_ (allP_nil _))
  cases hj : (ctx.fs.readFileSync (pjoin p "marketplace.json".data)).bind ctx.jparse with
  | none => exact allP_cons (okCat_errCheck _ _ _) (allP_nil _)
  | some mk =>
    refine allP_append (mktSub_ok mk) (allP_ite _ ?_ (allP_nil _))
    exact allP_cons (okCat_errCheck _ _ _) (allP_nil _)

theorem bundledBlock_ok (ctx : Ctx) (p : Str) :
    ∀ c ∈ bundledBlock ctx p, okCat "bundled_resources".data c := by
  apply allP_map
  intro a _
  by_cases hd : (ctx.fs.existsSync (pjoin p a) && ctx.fs.isDirectory (pjoin p a)) = true
  · rw [if_pos hd]
    exact okCat_passed _ _ _ _ (by decide)
  · rw [if_neg hd]
    exact okCat_passed _ _ _ _ (by decide)

theorem conciseChecks_ok (s : Str) :
    ∀ c ∈ conciseChecks s, okCat "SKILL.md".data c := by
  unfold conciseChecks
  refine allP_ite _ ?_ ?_
  · exact allP_cons (okCat_failed _ _ _ _ (by decide)) (allP_nil _)
  · exact allP_cons (okCat_passed _ _ _ _ (by decide)) (allP_nil _)

theorem conciseBlock_ok (ctx : Ctx) (p : Str) :
    ∀ c ∈ conciseBlock ctx p, okCat "SKILL.md".data c := by
  simp only [conciseBlock]
  refine allP_ite _ ?_ (allP_nil _)
  cases hr : ctx.fs.readFileSync (pjoin p "SKILL.md".data) with
  | some c => exact conciseChecks_ok c
  | none => exact allP_nil _

/-- Every check of a full run satisfies the severity/passed invariant. -/
theorem allChecks_sevOk (ctx : Ctx) (p : Str) :
    ∀ c ∈ allChecks ctx p, sevOk c := by
  unfold allChecks
  exact allP_append (allP_append (allP_append (allP_append (allP_append
    (allP_append (allP_append (allP_append (allP_append
      (fun c hc => (requiredChecks_ok ctx p c hc).1)
      (fun c hc => (skillMdBlock_ok ctx p c hc).1))
      (fun c hc => (recommendedChecks_ok ctx p c hc).1))
      (fun c hc => (pkgBlock_ok ctx p c hc).1))
      (fun c hc => (polyglotBlock_ok ctx p c hc).1))
      (fun c hc => (cliBlock_ok ctx p c hc).1))
      (fun c hc => (bestPracticesBlock_ok ctx p c hc).1))
      (fun c hc => (marketplaceBlock_ok ctx p c hc).1))
      (fun c hc => (bundledBlock_ok ctx p c hc).1))
      (fun c hc => (conciseBlock_ok ctx p c hc).1)

/-! ## Report-level lemmas -/

theorem checkSkillResults_checks (ctx : Ctx) (p : Str) :
    (checkSkillResults ctx p).checks =
      if ctx.fs.existsSync p = false then [dirCheck ctx p]
      else allChecks ctx p := by
  unfold checkSkillResults
  split <;> simp [applyChecks_checks, initReport]

theorem checkSkillResults_success (ctx : Ctx) (p : Str) :
    (checkSkillResults ctx p).success =
      !((checkSkillResults ctx p).checks.any (fun c => c.severity = sevError)) := by
  rw [checkSkillResults_checks]
  unfold checkSkillResults
  split <;> simp [applyChecks_success, applyChecks_checks, initReport]

/-! ## Concrete contexts used by witnesses and counterexamples -/

/-- A filesystem on which only the target `/s` itself exists (as a plain
file: nothing is a directory). -/
def fsNoDir : FS :=
  { existsSync := fun p => p == "/s".data
    isDirectory := fun _ => false
    readFileSync := fun _ => none }

def ctxNoDir : Ctx := { fs := fsNoDir, jparse := fun _ => none, t := id }

/-- A `SKILL.md` with well-formed frontmatter and a usage-phrase
description. -/
def skmdUse : Str :=
  "---\nname: a\ndescription: Use this skill when doing X\n---\nbody".data

def fsSkill : FS :=
  { existsSync := fun p => p == "/s".data || p == "/s/SKILL.md".data
    isDirectory := fun _ => false
    readFileSync := fun p =>
      if p == "/s/SKILL.md".data then some skmdUse else none }

def ctxSkill : Ctx := { fs := fsSkill, jparse := fun _ => none, t := id }

/-- A run with an unparseable `package.json`. -/
def fsBadPkg : FS :=
  { existsSync := fun p => p == "/s".data || p == "/s/package.json".data
    isDirectory := fun _ => false
    readFileSync := fun p =>
      if p == "/s/package.json".data then some "nope".data else none }

def ctxBadPkg : Ctx := { fs := fsBadPkg, jparse := fun _ => none, t := id }

/-- A parsed `marketplace.json` whose `repository` field is the boolean
`true` (truthy, but without `.startsWith`). -/
def mkRepoBool : Json :=
  Json.obj [("name".data, Json.str "x".data),
            ("repository".data, Json.bool true)]

def fsMkt : FS :=
  { existsSync := fun p => p == "/s".data || p == "/s/marketplace.json".data
    isDirectory := fun _ => false
    readFileSync := fun p =>
      if p == "/s/marketplace.json".data then some "mk".data else none }

def ctxMkt : Ctx :=
  { fs := fsMkt
    jparse := fun s => if s == "mk".data then some mkRepoBool else none
    t := id }

/-! ## The claims -/

/-- C1: a report's `success` is true iff no check in `checks` has severity
`error`; appending an error-severity check forces `success` to false, and
once false it stays false for the remainder of the run. -/
theorem claim1_success_iff_no_error (ctx : Ctx) (p : Str) :
    ((checkSkillResults ctx p).success = true ↔
      ∀ c ∈ (checkSkillResults ctx p).checks, c.severity ≠ sevError) ∧
    (∀ (r : Report) (c : Check), c.severity = sevError →
      (addCheck r c).success = false) ∧
    (∀ (r : Report) (l : List Check), r.success = false →
      (applyChecks r l).success = false) := by
  refine ⟨?_, ?_, ?_⟩
  · rw [checkSkillResults_success]
    simp [List.any_eq_true]
  · intro r c h
    rw [addCheck_success, h]
    simp
  · intro r l h
    rw [applyChecks_success, h]
    simp

theorem claim1_witness :
    ((checkSkillResults ctxNoDir "/nope".data).success = true ↔
      ∀ c ∈ (checkSkillResults ctxNoDir "/nope".data).checks,
        c.severity ≠ sevError) ∧
    (addCheck (initReport "/w".data)
      (errCheck "structure".data "directory_exists".data [])).success = false ∧
    (applyChecks (addCheck (initReport "/w".data)
      (errCheck "structure".data "directory_exists".data [])) []).success
        = false :=
  ⟨(claim1_success_iff_no_error ctxNoDir "/nope".data).1,
   (claim1_success_iff_no_error ctxNoDir "/nope".data).2.1 _ _ rfl,
   (claim1_success_iff_no_error ctxNoDir "/nope".data).2.2 _ []
     ((claim1_success_iff_no_error ctxNoDir "/nope".data).2.1 _ _ rfl)⟩

/-- C2 counterexample: `/s` exists as a plain file (not a directory), yet the
run is not terminated after one check — the existence gate only tests
`fs.existsSync`, so a full 16-check report is produced. -/
theorem claim2_counterexample :
    ctxNoDir.fs.existsSync "/s".data = true ∧
    ctxNoDir.fs.isDirectory "/s".data = false ∧
    (checkSkillResults ctxNoDir "/s".data).checks.length = 16 ∧
    (checkSkillResults ctxNoDir "/s".data).checks.length ≠ 1 := by decide

/-- C2 amended: for every target path that does not exist at all (the gate
accepts any existing filesystem object, directory or not), the evaluator
appends exactly one error-severity CheckResult, skips everything else, and
returns `success == false` with no recommendations; when the path exists the
run always reaches the later steps (e.g. the best-practices check
`has_skill_yml` is appended). -/
theorem claim2_amended (ctx : Ctx) (p : Str) :
    (ctx.fs.existsSync p = false →
      (checkSkillResults ctx p).checks = [dirCheck ctx p] ∧
      (dirCheck ctx p).severity = sevError ∧
      (checkSkillResults ctx p).success = false ∧
      (checkSkillResults ctx p).errors = [dirCheck ctx p] ∧
      (checkSkillResults ctx p).recommendations = []) ∧
    (ctx.fs.existsSync p = true →
      ∃ c ∈ (checkSkillResults ctx p).checks, c.name = "has_skill_yml".data) := by
  constructor
  · intro h
    have hc : (checkSkillResults ctx p).checks = [dirCheck ctx p] := by
      rw [checkSkillResults_checks, if_pos h]
    refine ⟨hc, rfl, ?_, ?_, ?_⟩
    · rw [checkSkillResults_success, hc]
      simp [dirCheck, errCheck]
    · unfold checkSkillResults
      rw [if_pos h, applyChecks_errors]
      simp [initReport, dirCheck, errCheck]
    · unfold checkSkillResults
      rw [if_pos h]
      exact (applyChecks_fixed _ _).2.2
  · intro h
    rw [checkSkillResults_checks, if_neg (by simp [h])]
    refine ⟨bCheck "best_practices".data "has_skill_yml".data
      (ctx.fs.existsSync (pjoin p ".skill.yml".data)) sevInfo
      "Consider adding .skill.yml for configuration".data, ?_, rfl⟩
    unfold allChecks bestPracticesBlock
    simp [List.mem_append, List.mem_cons]

theorem claim2_witness :
    ((checkSkillResults ctxNoDir "/nope".data).checks
        = [dirCheck ctxNoDir "/nope".data] ∧
      (dirCheck ctxNoDir "/nope".data).severity = sevError ∧
      (checkSkillResults ctxNoDir "/nope".data).success = false ∧
      (checkSkillResults ctxNoDir "/nope".data).errors
        = [dirCheck ctxNoDir "/nope".data] ∧
      (checkSkillResults ctxNoDir "/nope".data).recommendations = []) ∧
    (∃ c ∈ (checkSkillResults ctxNoDir "/s".data).checks,
      c.name = "has_skill_yml".data) :=
  ⟨(claim2_amended ctxNoDir "/nope".data).1 (by decide),
   (claim2_amended ctxNoDir "/s".data).2 (by decide)⟩

/-- C8: every appended CheckResult satisfies the severity/passed invariant:
`error` implies not passed, `success` implies passed. -/
theorem claim8_severity_passed (ctx : Ctx) (p : Str) (c : Check)
    (hc : c ∈ (checkSkillResults ctx p).checks) :
    (c.severity = sevError → c.passed = false) ∧
    (c.severity = sevSuccess → c.passed = true) := by
  rw [checkSkillResults_checks] at hc
  by_cases h : ctx.fs.existsSync p = false
  · rw [if_pos h] at hc
    rcases List.mem_singleton.mp hc with rfl
    exact (okCat_errCheck _ _ _).1
  · rw [if_neg h] at hc
    exact allChecks_sevOk ctx p c hc

theorem claim8_witness :
    ((dirCheck ctxNoDir "/nope".data).severity = sevError →
      (dirCheck ctxNoDir "/nope".data).passed = false) ∧
    ((dirCheck ctxNoDir "/nope".data).severity = sevSuccess →
      (dirCheck ctxNoDir "/nope".data).passed = true) :=
  claim8_severity_passed ctxNoDir "/nope".data _ (by decide)

/-- C3 counterexample: `SKILL.md` content `"x"` does not open with `---`; the
evaluator appends the missing-header error, but the document-body check is
still emitted in the same step — the claim's "no other SKILL.md-category
CheckResult from step 3" fails. -/
theorem claim3_counterexample :
    jsStartsWith "x".data "---".data = false ∧
    (skillMdChecks "x".data).map (fun c => (c.name, c.severity, c.passed)) =
      [("has_frontmatter".data, sevError, false),
       ("has_markdown_body".data, sevWarning, false)] ∧
    (skillMdChecks "x".data).length ≠ 1 := by decide

/-- C3 amended: when the primary descriptor does not open with `---`, step 3
emits exactly two checks — the missing-header error and the document-body
check (which does not depend on the header being recognized); the nested
name/description/license/usage checks are all skipped. -/
theorem claim3_amended (content : Str)
    (h : jsStartsWith content "---".data = false) :
    skillMdChecks content =
      [bCheck "SKILL.md".data "has_frontmatter".data false sevError
        "SKILL.md must start with YAML frontmatter (---)".data,
       bCheck "SKILL.md".data "has_markdown_body".data
        (decide (jsIndexOf content "---".data 4 > 0) &&
         decide (0 < (jsTrim (jsSubstringFrom content
           ((jsIndexOf content "---".data 4).toNat + 3))).length))
        sevWarning
        "SKILL.md should have markdown body content after frontmatter".data] := by
  simp only [skillMdChecks, h, Bool.false_eq_true, if_false, List.nil_append,
    List.singleton_append]

theorem claim3_witness :
    skillMdChecks "x".data =
      [bCheck "SKILL.md".data "has_frontmatter".data false sevError
        "SKILL.md must start with YAML frontmatter (---)".data,
       bCheck "SKILL.md".data "has_markdown_body".data
        (decide (jsIndexOf "x".data "---".data 4 > 0) &&
         decide (0 < (jsTrim (jsSubstringFrom "x".data
           ((jsIndexOf "x".data "---".data 4).toNat + 3))).length))
        sevWarning
        "SKILL.md should have markdown body content after frontmatter".data] :=
  claim3_amended "x".data (by decide)

/-- C4 counterexample: in a run on a directory containing only `SKILL.md`,
the recommended-file check `file_package.json` sits at index 7 of `checks`
while the word-count check `concise_content` is the last check (index 22 of
23) — it does not precede the recommended-file, best-practices, marketplace
or bundled-resource checks. -/
theorem claim4_counterexample :
    ((checkSkillResults ctxSkill "/s".data).checks.map (fun c => c.name)).indexOf
        "file_package.json".data = 7 ∧
    ((checkSkillResults ctxSkill "/s".data).checks.map (fun c => c.name)).indexOf
        "concise_content".data = 22 ∧
    (checkSkillResults ctxSkill "/s".data).checks.length = 23 := by decide

/-- C4 amended: the word-count check (success iff the `split(/\s+/)` piece
count is at most 5000) is emitted as the final check of the run, after every
other check, whenever the primary descriptor exists. -/
theorem claim4_amended (ctx : Ctx) (p : Str) (content : Str)
    (h1 : ctx.fs.existsSync p = true)
    (h2 : ctx.fs.existsSync (pjoin p "SKILL.md".data) = true)
    (h3 : ctx.fs.readFileSync (pjoin p "SKILL.md".data) = some content) :
    (checkSkillResults ctx p).checks.getLast? = (conciseChecks content).getLast? ∧
    (conciseChecks content).length = 1 ∧
    ∀ c ∈ conciseChecks content,
      c.category = "SKILL.md".data ∧ c.name = "concise_content".data ∧
      c.severity = (if (splitWs content).length > 5000 then sevWarning
        else sevSuccess) ∧
      c.passed = !(decide ((splitWs content).length > 5000)) := by
  have hcb : conciseBlock ctx p = conciseChecks content := by
    simp [conciseBlock, h2, h3]
  refine ⟨?_, ?_, ?_⟩
  · rw [checkSkillResults_checks, if_neg (by simp [h1])]
    unfold allChecks
    rw [hcb]
    apply List.getLast?_append_of_ne_nil
    simp only [conciseChecks]
    split <;> simp
  · simp only [conciseChecks]
    split <;> simp
  · intro c hc
    simp only [conciseChecks] at hc
    by_cases hwc : (splitWs content).length > 5000
    · rw [if_pos hwc] at hc
      rcases List.mem_singleton.mp hc with rfl
      refine ⟨rfl, rfl, ?_, ?_⟩ <;> simp [hwc]
    · rw [if_neg hwc] at hc
      rcases List.mem_singleton.mp hc with rfl
      refine ⟨rfl, rfl, ?_, ?_⟩ <;> simp [hwc]

theorem claim4_witness :
    (checkSkillResults ctxSkill "/s".data).checks.getLast?
        = (conciseChecks skmdUse).getLast? ∧
    (conciseChecks skmdUse).length = 1 ∧
    ∀ c ∈ conciseChecks skmdUse,
      c.category = "SKILL.md".data ∧ c.name = "concise_content".data ∧
      c.severity = (if (splitWs skmdUse).length > 5000 then sevWarning
        else sevSuccess) ∧
      c.passed = !(decide ((splitWs skmdUse).length > 5000)) :=
  claim4_amended ctxSkill "/s".data skmdUse (by decide) (by decide) (by decide)

/-- A descriptor whose first line is `----` (not the exact delimiter). -/
def cxOpen : Str := "----\nname: a\ndescription: b\n---\nx".data

/-- A descriptor whose header, read between the two standalone `---` lines,
contains `name:` — but whose second line embeds `---` inside `ab---cd`. -/
def cxClose : Str := "---\nab---cd\nname: x\n---\nbody".data

/-- C5 counterexample: the recognized header block is not delimited by
standalone `---` lines. Opening: a first line `----` still passes the header
check (only the 3-character prefix at offset 0 is tested). Closing: the block
is cut at the first occurrence of `---` anywhere at offset ≥ 4, so in
`cxClose` only `"\nab"` is inspected and the `name:` key between the
standalone delimiter lines is reported missing. -/
theorem claim5_counterexample :
    (cxOpen.takeWhile (fun ch => ch ≠ '\n') = "----".data ∧
     List.take 2 ((skillMdChecks cxOpen).map (fun c => (c.name, c.passed))) =
       [("has_frontmatter".data, true), ("frontmatter_has_name".data, true)]) ∧
    (strContains cxClose "\nname:".data = true ∧
     jsSubstring cxClose 4 (jsIndexOf cxClose "---".data 4).toNat = "ab".data ∧
     List.take 2 ((skillMdChecks cxClose).map (fun c => (c.name, c.passed))) =
       [("has_frontmatter".data, true), ("frontmatter_has_name".data, false)]) := by
  decide

/-- C5 amended: the header block is recognized whenever the file starts with
the 3-character prefix `---` (the rest of the first line is unconstrained);
it is closed at the first occurrence of `---` at any offset ≥ 4 (not
necessarily a standalone line); and the name/description/license keys are
looked up in exactly the characters from offset 4 up to that occurrence. -/
theorem claim5_amended (content : Str) (e : Int)
    (h1 : jsStartsWith content "---".data = true)
    (h2 : jsIndexOf content "---".data 4 = e)
    (h3 : e > 0) :
    ∃ tail, skillMdChecks content =
      bCheck "SKILL.md".data "has_frontmatter".data true sevError
        "SKILL.md must start with YAML frontmatter (---)".data ::
      bCheck "SKILL.md".data "frontmatter_has_name".data
        (strContains ((content.drop 4).take (e.toNat - 4)) "name:".data)
        sevError "Frontmatter must include \"name:\" field".data ::
      bCheck "SKILL.md".data "frontmatter_has_description".data
        (strContains ((content.drop 4).take (e.toNat - 4)) "description:".data)
        sevError "Frontmatter must include \"description:\" field".data ::
      bCheck "SKILL.md".data "frontmatter_has_license".data
        (strContains ((content.drop 4).take (e.toNat - 4)) "license:".data)
        sevInfo "Consider adding \"license:\" field to frontmatter".data ::
      tail := by
  simp only [skillMdChecks, h1, h2, if_pos h3, if_true, jsSubstring,
    List.cons_append]
  exact ⟨_, rfl⟩

theorem claim5_witness :
    ∃ tail, skillMdChecks cxOpen =
      bCheck "SKILL.md".data "has_frontmatter".data true sevError
        "SKILL.md must start with YAML frontmatter (---)".data ::
      bCheck "SKILL.md".data "frontmatter_has_name".data
        (strContains ((cxOpen.drop 4).take ((28 : Int).toNat - 4)) "name:".data)
        sevError "Frontmatter must include \"name:\" field".data ::
      bCheck "SKILL.md".data "frontmatter_has_description".data
        (strContains ((cxOpen.drop 4).take ((28 : Int).toNat - 4)) "description:".data)
        sevError "Frontmatter must include \"description:\" field".data ::
      bCheck "SKILL.md".data "frontmatter_has_license".data
        (strContains ((cxOpen.drop 4).take ((28 : Int).toNat - 4)) "license:".data)
        sevInfo "Consider adding \"license:\" field to frontmatter".data ::
      tail :=
  claim5_amended cxOpen 28 (by decide) (by decide) (by decide)

/-- A header with a `description:` key whose value is empty and which is the
last line of the header. -/
def cxEmptyDesc : Str := "---\nname: a\ndescription:\n---\nx".data

/-- C6 counterexample: the header contains a `description` key (and the
`frontmatter_has_description` check passes), but because the key's value is
empty and nothing follows it inside the header, the regex
`/description:\s*(.+)/` finds no match and no `describes_when_to_use` check
is appended at all. -/
theorem claim6_counterexample :
    strContains (jsSubstring cxEmptyDesc 4
        (jsIndexOf cxEmptyDesc "---".data 4).toNat) "description:".data = true ∧
    ("frontmatter_has_description".data, true) ∈
      (skillMdChecks cxEmptyDesc).map (fun c => (c.name, c.passed)) ∧
    "describes_when_to_use".data ∉
      (skillMdChecks cxEmptyDesc).map (fun c => c.name) := by decide

/-- C6 amended: when the header contains a `description` key, the
`describes_when_to_use` check is appended iff the regex
`/description:\s*(.+)/` matches the header text (so a description whose
empty value ends the header yields no check; the `\s*` may also skip line
breaks, drawing the value from a later line); when it matches with value
`v`, the check's severity is `success` iff the lowercased `v` contains one
of the four usage phrases, `warning` otherwise. -/
theorem claim6_amended (content : Str) (e : Int)
    (h1 : jsStartsWith content "---".data = true)
    (h2 : jsIndexOf content "---".data 4 = e)
    (h3 : e > 0)
    (hd : strContains (jsSubstring content 4 e.toNat) "description:".data
      = true) :
    (descMatch (jsSubstring content 4 e.toNat) = none →
      (skillMdChecks content).map (fun c => c.name) =
        ["has_frontmatter".data, "frontmatter_has_name".data,
         "frontmatter_has_description".data, "frontmatter_has_license".data,
         "has_markdown_body".data]) ∧
    (∀ v, descMatch (jsSubstring content 4 e.toNat) = some v →
      bCheck "SKILL.md".data "describes_when_to_use".data
        (strContains (strLower v) "use when".data ||
         strContains (strLower v) "use this skill".data ||
         strContains (strLower v) "should be used".data ||
         strContains (strLower v) "when to".data) sevWarning
        "Description should explain when to use this skill (e.g., \"Use this skill when...\")".data
        ∈ skillMdChecks content ∧
      (skillMdChecks content).map (fun c => c.name) =
        ["has_frontmatter".data, "frontmatter_has_name".data,
         "frontmatter_has_description".data, "frontmatter_has_license".data,
         "describes_when_to_use".data, "has_markdown_body".data]) := by
  constructor
  · intro hm
    simp only [skillMdChecks, h1, h2, if_pos h3, if_true, hd, hm,
      List.cons_append, List.nil_append, List.map_cons, List.map_append]
    simp [bCheck]
  · intro v hm
    constructor
    · simp only [skillMdChecks, h1, h2, if_pos h3, if_true, hd, hm,
        List.cons_append, List.nil_append]
      simp [List.mem_cons]
    · simp only [skillMdChecks, h1, h2, if_pos h3, if_true, hd, hm,
        List.cons_append, List.nil_append, List.map_cons, List.map_append]
      simp [bCheck]

theorem claim6_witness :
    ((skillMdChecks cxEmptyDesc).map (fun c => c.name) =
      ["has_frontmatter".data, "frontmatter_has_name".data,
       "frontmatter_has_description".data, "frontmatter_has_license".data,
       "has_markdown_body".data]) ∧
    (bCheck "SKILL.md".data "describes_when_to_use".data
        (strContains (strLower "Use this skill when doing X".data) "use when".data ||
         strContains (strLower "Use this skill when doing X".data) "use this skill".data ||
         strContains (strLower "Use this skill when doing X".data) "should be used".data ||
         strContains (strLower "Use this skill when doing X".data) "when to".data) sevWarning
        "Description should explain when to use this skill (e.g., \"Use this skill when...\")".data
        ∈ skillMdChecks skmdUse) :=
  ⟨(claim6_amended cxEmptyDesc 25 (by decide) (by decide) (by decide)
      (by decide)).1 (by decide),
   ((claim6_amended skmdUse 53 (by decide) (by decide) (by decide)
      (by decide)).2 "Use this skill when doing X".data (by decide)).1⟩

/-- Checks of a single-category block never survive a filter for another
category. -/
theorem filter_cat_nil {l : List Check} {cat target : Str}
    (h : ∀ c ∈ l, okCat cat c) (hne : cat ≠ target) :
    l.filter (fun c => c.category = target) = [] := by
  apply List.filter_eq_nil_iff.mpr
  intro c hc
  simp [(h c hc).2, hne]

/-- A single-category block survives the filter for its own category. -/
theorem filter_cat_self {l : List Check} {cat : Str}
    (h : ∀ c ∈ l, okCat cat c) :
    l.filter (fun c => c.category = cat) = l := by
  apply List.filter_eq_self.mpr
  intro c hc
  simp [(h c hc).2]

/-- C7: when `package.json` exists but does not parse, the manifest category
contributes exactly one check — the error-severity `valid_json` catch
check — with no field-level manifest checks, and the run still continues to
the later steps. -/
theorem claim7_manifest_parse_failure (ctx : Ctx) (p : Str)
    (h0 : ctx.fs.existsSync p = true)
    (h1 : ctx.fs.existsSync (pjoin p "package.json".data) = true)
    (h2 : (ctx.fs.readFileSync (pjoin p "package.json".data)).bind ctx.jparse
      = none) :
    (checkSkillResults ctx p).checks.filter
        (fun c => c.category = "package.json".data)
      = [pkgCatchCheck ctx (pjoin p "package.json".data)] ∧
    (pkgCatchCheck ctx (pjoin p "package.json".data)).severity = sevError ∧
    ∃ c ∈ (checkSkillResults ctx p).checks,
      c.category = "best_practices".data := by
  have hpb : pkgBlock ctx p
      = [pkgCatchCheck ctx (pjoin p "package.json".data)] := by
    simp [pkgBlock, h1, h2]
  have hck : (checkSkillResults ctx p).checks = allChecks ctx p := by
    rw [checkSkillResults_checks, if_neg (by simp [h0])]
  refine ⟨?_, rfl, ?_⟩
  · rw [hck]
    unfold allChecks
    rw [List.filter_append, List.filter_append, List.filter_append,
      List.filter_append, List.filter_append, List.filter_append,
      List.filter_append, List.filter_append, List.filter_append]
    rw [filter_cat_nil (requiredChecks_ok ctx p) (by decide),
      filter_cat_nil (skillMdBlock_ok ctx p) (by decide),
      filter_cat_nil (recommendedChecks_ok ctx p) (by decide),
      filter_cat_self (pkgBlock_ok ctx p),
      filter_cat_nil (polyglotBlock_ok ctx p) (by decide),
      filter_cat_nil (cliBlock_ok ctx p) (by decide),
      filter_cat_nil (bestPracticesBlock_ok ctx p) (by decide),
      filter_cat_nil (marketplaceBlock_ok ctx p) (by decide),
      filter_cat_nil (bundledBlock_ok ctx p) (by decide),
      filter_cat_nil (conciseBlock_ok ctx p) (by decide), hpb]
    simp
  · rw [hck]
    refine ⟨bCheck "best_practices".data "has_skill_yml".data
      (ctx.fs.existsSync (pjoin p ".skill.yml".data)) sevInfo
      "Consider adding .skill.yml for configuration".data, ?_, rfl⟩
    unfold allChecks bestPracticesBlock
    simp [List.mem_append, List.mem_cons]

theorem claim7_witness :
    ((checkSkillResults ctxBadPkg "/s".data).checks.filter
        (fun c => c.category = "package.json".data)
      = [pkgCatchCheck ctxBadPkg (pjoin "/s".data "package.json".data)]) ∧
    (pkgCatchCheck ctxBadPkg (pjoin "/s".data "package.json".data)).severity
      = sevError ∧
    ∃ c ∈ (checkSkillResults ctxBadPkg "/s".data).checks,
      c.category = "best_practices".data :=
  claim7_manifest_parse_failure ctxBadPkg "/s".data (by decide) (by decide) rfl

/-- On a parsed object, the marketplace required-fields loop never faults and
produces one `field_*` check per field. -/
theorem mapE_mktField_obj (ms : List (Str × Json)) (fields : List Str) :
    mapE (mktFieldCheck (Json.obj ms)) fields =
      Except.ok (fields.map (fun f =>
        bCheck "marketplace".data ("field_".data ++ f)
          (lookupLast ms f).isSome sevWarning
          ("Missing marketplace field: ".data ++ f))) := by
  induction fields with
  | nil => rfl
  | cons f fs ih =>
    simp only [mapE, mktFieldCheck, jGetE, Except.map, bind, Except.bind, ih,
      Functor.map, List.map_cons, pure, Except.pure]

/-- The field-conditional marketplace sub-checks never fault on a parsed
object. -/
theorem guardBlock_obj_isOk (ms : List (Str × Json)) (k : Str)
    (cond : Json → Bool) (mk : Json → Check) :
    ∃ l, (do
      let ov ← jGetE (Json.obj ms) k
      match ov with
      | some v => if cond v then pure [mk v] else pure ([] : List Check)
      | none => pure []) = Except.ok l := by
  simp only [jGetE, bind, Except.bind]
  cases lookupLast ms k with
  | none => exact ⟨[], rfl⟩
  | some v =>
    by_cases hc : cond v = true
    · exact ⟨[mk v], by simp [hc, pure, Except.pure]⟩
    · exact ⟨[], by simp [hc, pure, Except.pure]⟩

/-- The repository sub-check faults (a `TypeError` on `.startsWith`) exactly
when the field holds a truthy non-string. -/
theorem mktRepoBlock_faults (ms : List (Str × Json)) (v : Json)
    (hrepo : lookupLast ms "repository".data = some v)
    (htr : jsTruthy v = true) (hnstr : isJStr v = false) :
    mktRepoBlock (Json.obj ms) = Except.error () := by
  unfold mktRepoBlock
  simp only [jGetE, bind, Except.bind, hrepo, htr, if_true]
  cases v with
  | null => simp [jsTruthy] at htr
  | str s => simp [isJStr] at hnstr
  | bool b => rfl
  | arr xs => rfl
  | obj fs2 => rfl

/-- C10: when `marketplace.json` parses to an object whose `repository` field
is truthy but not a string, the repository sub-check raises a runtime fault;
the evaluator then appends the marketplace `valid_json` error check while
every field-level check appended before the fault (the 11 `field_*` checks
and the conditional ones) remains in `checks` — the marketplace error report
is not atomic with respect to its sub-checks. -/
theorem claim10_marketplace_fault (ctx : Ctx) (p : Str) (mk : Json)
    (ms : List (Str × Json)) (v : Json)
    (h0 : ctx.fs.existsSync p = true)
    (h1 : ctx.fs.existsSync (pjoin p "marketplace.json".data) = true)
    (h2 : (ctx.fs.readFileSync (pjoin p "marketplace.json".data)).bind
      ctx.jparse = some mk)
    (hobj : mk = Json.obj ms)
    (hrepo : lookupLast ms "repository".data = some v)
    (htr : jsTruthy v = true) (hnstr : isJStr v = false) :
    (mktSub mk).2 = true ∧
    (∃ cl, mapE (mktFieldCheck mk) marketplaceRequiredFields = Except.ok cl ∧
      cl.length = 11 ∧ cl <+: (mktSub mk).1) ∧
    marketplaceBlock ctx p =
      bCheck "marketplace".data "has_marketplace_json".data true sevInfo
        "Consider adding marketplace.json for market distribution".data ::
      ((mktSub mk).1 ++
        [errCheck "marketplace".data "valid_json".data
          "marketplace.json contains invalid JSON".data]) ∧
    (∃ pre post, (checkSkillResults ctx p).checks
      = pre ++ marketplaceBlock ctx p ++ post) := by
  subst hobj
  obtain ⟨l2, e2⟩ : ∃ l, mktCategoriesBlock (Json.obj ms) = Except.ok l := by
    unfold mktCategoriesBlock
    exact guardBlock_obj_isOk ms _ _ _
  obtain ⟨l3, e3⟩ : ∃ l, mktKeywordsBlock (Json.obj ms) = Except.ok l := by
    unfold mktKeywordsBlock
    exact guardBlock_obj_isOk ms _ _ _
  obtain ⟨l4, e4⟩ : ∃ l, mktIdBlock (Json.obj ms) = Except.ok l := by
    unfold mktIdBlock
    exact guardBlock_obj_isOk ms _ _ _
  have e5 := mktRepoBlock_faults ms v hrepo htr hnstr
  have e1 := mapE_mktField_obj ms marketplaceRequiredFields
  have hsub : mktSub (Json.obj ms) =
      ((marketplaceRequiredFields.map (fun f =>
        bCheck "marketplace".data ("field_".data ++ f)
          (lookupLast ms f).isSome sevWarning
          ("Missing marketplace field: ".data ++ f))) ++ (l2 ++ (l3 ++ (l4 ++ []))),
        true) := by
    unfold mktSub
    rw [e1, e2, e3, e4, e5]
    simp [runBlocks]
  refine ⟨by rw [hsub], ?_, ?_, ?_⟩
  · refine ⟨_, e1, ?_, ?_⟩
    · simp [marketplaceRequiredFields]
    · rw [hsub]
      exact List.prefix_append _ _
  · unfold marketplaceBlock
    simp only [h1, if_true, h2]
    rw [show (mktSub (Json.obj ms)).2 = true from by rw [hsub]]
    simp
  · rw [checkSkillResults_checks, if_neg (by simp [h0])]
    refine ⟨requiredChecks ctx p ++ skillMdBlock ctx p ++
      recommendedChecks ctx p ++ pkgBlock ctx p ++ polyglotBlock ctx p ++
      cliBlock ctx p ++ bestPracticesBlock ctx p,
      bundledBlock ctx p ++ conciseBlock ctx p, ?_⟩
    unfold allChecks
    simp [List.append_assoc]

theorem claim10_witness :
    (mktSub mkRepoBool).2 = true ∧
    (∃ cl, mapE (mktFieldCheck mkRepoBool) marketplaceRequiredFields
        = Except.ok cl ∧ cl.length = 11 ∧ cl <+: (mktSub mkRepoBool).1) ∧
    marketplaceBlock ctxMkt "/s".data =
      bCheck "marketplace".data "has_marketplace_json".data true sevInfo
        "Consider adding marketplace.json for market distribution".data ::
      ((mktSub mkRepoBool).1 ++
        [errCheck "marketplace".data "valid_json".data
          "marketplace.json contains invalid JSON".data]) ∧
    (∃ pre post, (checkSkillResults ctxMkt "/s".data).checks
      = pre ++ marketplaceBlock ctxMkt "/s".data ++ post) :=
  claim10_marketplace_fault ctxMkt "/s".data mkRepoBool
    [("name".data, Json.str "x".data), ("repository".data, Json.bool true)]
    (Json.bool true) (by decide) (by decide) rfl rfl rfl rfl rfl

/-! ## C9: round trip of the structured rendering -/

/- Fuel measures for the parser: one unit per value plus one per list
element. -/
mutual

def jsize : Json → Nat
  | .null => 1
  | .bool _ => 1
  | .str _ => 1
  | .arr [] => 1
  | .arr (x :: xs) => 1 + esize x xs
  | .obj [] => 1
  | .obj (m :: ms) => 1 + msize m ms
  termination_by j => sizeOf j

def esize : Json → List Json → Nat
  | x, [] => jsize x + 1
  | x, y :: ys => jsize x + 1 + esize y ys
  termination_by x xs => 1 + sizeOf x + sizeOf xs

def msize : (Str × Json) → List (Str × Json) → Nat
  | (k, v), [] => jsize v + 1
  | (k, v), m2 :: ms => jsize v + 1 + msize m2 ms
  termination_by m ms => 1 + sizeOf m + sizeOf ms

end

theorem jsize_pos (j : Json) : 1 ≤ jsize j := by
  cases j with
  | null => simp [jsize]
  | bool b => simp [jsize]
  | str s => simp [jsize]
  | arr xs => cases xs with
    | nil => simp [jsize]
    | cons x xs => simp [jsize]
  | obj ms => cases ms with
    | nil => simp [jsize]
    | cons m ms => simp [jsize]

theorem esize_pos (x : Json) (xs : List Json) : 1 ≤ esize x xs := by
  cases xs with
  | nil => simp [esize]
  | cons y ys => simp [esize]; omega

theorem msize_pos (m : Str × Json) (ms : List (Str × Json)) :
    1 ≤ msize m ms := by
  obtain ⟨k, v⟩ := m
  cases ms with
  | nil => simp [msize]
  | cons m2 ms => simp [msize]; omega

/-- A run of JSON whitespace. -/
def allWs (l : Str) : Bool := l.all isJsonWs

theorem dropWs_ws_append (pre s : Str) (h : allWs pre = true) :
    dropWs (pre ++ s) = dropWs s := by
  induction pre with
  | nil => rfl
  | cons c cs ih =>
    simp only [allWs, List.all_cons, Bool.and_eq_true] at h
    simp only [List.cons_append, dropWs, List.dropWhile_cons, h.1, if_true]
    exact ih (by simp [allWs, h.2])

theorem dropWs_cons_not (c : Char) (s : Str) (h : isJsonWs c = false) :
    dropWs (c :: s) = c :: s := by
  simp [dropWs, List.dropWhile_cons, h]

theorem spacesN_allWs (n : Nat) : allWs (spacesN n) = true := by
  simp only [allWs, spacesN, List.all_eq_true]
  intro c hc
  rw [List.eq_of_mem_replicate hc]
  rfl

/-- The serialization of any value starts with one of six distinctive
non-whitespace characters. -/
theorem serJ_head (ind : Nat) (j : Json) :
    ∃ c cs, serJ ind j = c :: cs ∧
      (c = 'n' ∨ c = 't' ∨ c = 'f' ∨ c = '"' ∨ c = '[' ∨ c = '\x7b') := by
  cases j with
  | null => exact ⟨'n', "ull".data, by simp [serJ], by simp⟩
  | bool b =>
    cases b with
    | true => exact ⟨'t', "rue".data, by simp [serJ], by simp⟩
    | false => exact ⟨'f', "alse".data, by simp [serJ], by simp⟩
  | str s =>
    exact ⟨'"', escStr s ++ ['"'], by simp [serJ, quoteStr], by simp⟩
  | arr xs =>
    cases xs with
    | nil => exact ⟨'[', [']'], by simp [serJ], by simp⟩
    | cons x xs =>
      exact ⟨'[', '\n' :: serItems (ind + 2) x xs ++ '\n' :: spacesN ind ++ [']'],
        by simp [serJ], by simp⟩
  | obj ms =>
    cases ms with
    | nil => exact ⟨'\x7b', ['\x7d'], by simp [serJ], by simp⟩
    | cons m ms =>
      exact ⟨'\x7b', '\n' :: serMembers (ind + 2) m ms ++ '\n' :: spacesN ind
        ++ ['\x7d'], by simp [serJ], by simp⟩

theorem hexVal_hexChar : ∀ n < 16, hexVal (hexChar n) = some n := by decide

/-- Unescape-then-escape of one character round-trips inside a string body
parse. -/
theorem parseStrBody_esc (s : Str) (rest : Str) :
    parseStrBody (escStr s ++ '"' :: rest) = some (s, rest) := by
  induction s with
  | nil => simp [escStr, parseStrBody]
  | cons c cs ih =>
    simp only [escStr, List.append_assoc]
    by_cases h1 : c = '"'
    · subst h1
      simp [escChar, parseStrBody, parseEsc, ih]
    · by_cases h2 : c = '\\'
      · subst h2
        simp [escChar, parseStrBody, parseEsc, ih]
      · by_cases h3 : c = '\n'
        · subst h3
          simp [escChar, parseStrBody, parseEsc, ih]
        · by_cases h4 : c = '\r'
          · subst h4
            simp [escChar, parseStrBody, parseEsc, ih]
          · by_cases h5 : c = '\t'
            · subst h5
              simp [escChar, parseStrBody, parseEsc, ih]
            · by_cases h6 : c = '\x08'
              · subst h6
                simp [escChar, parseStrBody, parseEsc, ih]
              · by_cases h7 : c = '\x0c'
                · subst h7
                  simp [escChar, parseStrBody, parseEsc, ih]
                · by_cases h8 : c.toNat < 32
                  · have harr : escChar c = ['\\', 'u', '0', '0',
                        hexChar (c.toNat / 16), hexChar (c.toNat % 16)] := by
                      simp [escChar, h1, h2, h3, h4, h5, h6, h7, h8]
                    have e0 : hexVal '0' = some 0 := by decide
                    have e1 : hexVal (hexChar (c.toNat / 16))
                        = some (c.toNat / 16) := hexVal_hexChar _ (by omega)
                    have e2 : hexVal (hexChar (c.toNat % 16))
                        = some (c.toNat % 16) := hexVal_hexChar _ (by omega)
                    rw [harr]
                    simp only [List.cons_append, List.nil_append]
                    simp [parseStrBody, parseEsc, e0, e1, e2, bind,
                      Option.bind, ih]
                    have hv : c.toNat / 16 * 16 + c.toNat % 16 = c.toNat := by
                      omega
                    rw [hv, Char.ofNat_toNat]
                  · have harr : escChar c = [c] := by
                      simp [escChar, h1, h2, h3, h4, h5, h6, h7, h8]
                    rw [harr]
                    simp only [List.cons_append, List.nil_append]
                    simp [parseStrBody, h1, h2, ih]

theorem serItems_split (i : Nat) (x : Json) (xs : List Json) :
    ∃ more, serItems i x xs = spacesN i ++ (serJ i x ++ more) := by
  cases xs with
  | nil => exact ⟨[], by simp [serItems]⟩
  | cons y ys => exact ⟨',' :: '\n' :: serItems i y ys, by simp [serItems]⟩

theorem serMembers_split (i : Nat) (k : Str) (v : Json)
    (ms : List (Str × Json)) :
    ∃ more, serMembers i (k, v) ms =
      spacesN i ++ ('"' :: (escStr k ++ ('"' :: (':' :: ' ' ::
        (serJ i v ++ more))))) := by
  cases ms with
  | nil => exact ⟨[], by simp [serMembers, quoteStr, List.append_assoc]⟩
  | cons m2 ms =>
    exact ⟨',' :: '\n' :: serMembers i m2 ms,
      by simp [serMembers, quoteStr, List.append_assoc]⟩

/-- The serialization of a value, prefixed by whitespace, drops to itself. -/
theorem dropWs_pre_serJ (pre : Str) (ind : Nat) (j : Json) (rest : Str)
    (hpre : allWs pre = true) :
    dropWs (pre ++ (serJ ind j ++ rest)) = serJ ind j ++ rest := by
  rw [dropWs_ws_append _ _ hpre]
  obtain ⟨c0, cs0, he, h6⟩ := serJ_head ind j
  have hw : isJsonWs c0 = false := by
    rcases h6 with rfl | rfl | rfl | rfl | rfl | rfl <;> decide
  rw [he, List.cons_append, dropWs_cons_not _ _ hw]

theorem allWs_cons (c : Char) (l : Str) :
    allWs (c :: l) = (isJsonWs c && allWs l) := by
  simp [allWs]

theorem allWs_nl_spaces (n : Nat) : allWs ('\n' :: spacesN n) = true := by
  rw [allWs_cons, spacesN_allWs]
  decide

theorem parse_ser : ∀ f : Nat,
    (∀ j ind rest pre, allWs pre = true → jsize j ≤ f →
      parseV f (pre ++ (serJ ind j ++ rest)) = some (j, rest)) ∧
    (∀ x xs ind rest pre mid, allWs pre = true → allWs mid = true →
      esize x xs ≤ f →
      parseElems f (pre ++ (serItems ind x xs ++ (mid ++ ']' :: rest)))
        = some (x :: xs, rest)) ∧
    (∀ k v ms ind rest pre mid, allWs pre = true → allWs mid = true →
      msize (k, v) ms ≤ f →
      parseMems f (pre ++ (serMembers ind (k, v) ms ++ (mid ++ '\x7d' :: rest)))
        = some ((k, v) :: ms, rest)) := by
  intro f
  induction f with
  | zero =>
    refine ⟨?_, ?_, ?_⟩
    · intro j ind rest pre _ hsz
      have := jsize_pos j
      omega
    · intro x xs ind rest pre mid _ _ hsz
      have := esize_pos x xs
      omega
    · intro k v ms ind rest pre mid _ _ hsz
      have := msize_pos (k, v) ms
      omega
  | succ f ih =>
    obtain ⟨ihA, ihB, ihC⟩ := ih
    refine ⟨?_, ?_, ?_⟩
    · -- values
      intro j ind rest pre hpre hsz
      have hd := dropWs_pre_serJ pre ind j rest hpre
      simp only [parseV]
      rw [hd]
      cases j with
      | null => simp [serJ]
      | bool b => cases b <;> simp [serJ]
      | str s0 => simp [serJ, quoteStr, List.append_assoc, parseStrBody_esc]
      | arr xs =>
        cases xs with
        | nil => simp [serJ, dropWs, List.dropWhile_cons, isJsonWs]
        | cons x xs =>
          simp only [serJ, List.cons_append, List.append_assoc,
            List.nil_append]
          obtain ⟨more, hm⟩ := serItems_split (ind + 2) x xs
          have hsz2 : esize x xs ≤ f := by
            simp only [jsize] at hsz
            omega
          have hB := ihB x xs (ind + 2) rest ['\n']
            ('\n' :: spacesN ind) (by decide) (allWs_nl_spaces ind) hsz2
          have hmain : parseElems f ('\n' :: (serItems (ind + 2) x xs ++
              ('\n' :: (spacesN ind ++ (']' :: rest)))))
              = some (x :: xs, rest) := by
            have hshape : ('\n' :: (serItems (ind + 2) x xs ++
                ('\n' :: (spacesN ind ++ (']' :: rest)))))
                = ['\n'] ++ (serItems (ind + 2) x xs ++
                  (('\n' :: spacesN ind) ++ (']' :: rest))) := by
              simp [List.append_assoc]
            rw [hshape]
            exact hB
          have hr : dropWs ('\n' :: (serItems (ind + 2) x xs ++
              ('\n' :: (spacesN ind ++ (']' :: rest)))))
              = serJ (ind + 2) x ++ (more ++
                ('\n' :: (spacesN ind ++ (']' :: rest)))) := by
            rw [hm]
            have hshape : ('\n' :: ((spacesN (ind + 2) ++
                (serJ (ind + 2) x ++ more)) ++
                ('\n' :: (spacesN ind ++ (']' :: rest)))))
                = ('\n' :: spacesN (ind + 2)) ++ (serJ (ind + 2) x ++ (more ++
                  ('\n' :: (spacesN ind ++ (']' :: rest))))) := by
              simp [List.append_assoc]
            rw [hshape]
            exact dropWs_pre_serJ _ _ _ _ (allWs_nl_spaces _)
          obtain ⟨c0, cs0, he, h6⟩ := serJ_head (ind + 2) x
          rw [he, List.cons_append] at hr
          rw [hr]
          rcases h6 with rfl | rfl | rfl | rfl | rfl | rfl <;> simp [hmain]
      | obj ms =>
        cases ms with
        | nil => simp [serJ, dropWs, List.dropWhile_cons, isJsonWs]
        | cons m ms =>
          obtain ⟨k, v⟩ := m
          simp only [serJ, List.cons_append, List.append_assoc,
            List.nil_append]
          obtain ⟨more, hm⟩ := serMembers_split (ind + 2) k v ms
          have hsz2 : msize (k, v) ms ≤ f := by
            simp only [jsize] at hsz
            omega
          have hC := ihC k v ms (ind + 2) rest ['\n']
            ('\n' :: spacesN ind) (by decide) (allWs_nl_spaces ind) hsz2
          have hmain : parseMems f ('\n' :: (serMembers (ind + 2) (k, v) ms ++
              ('\n' :: (spacesN ind ++ ('\x7d' :: rest)))))
              = some ((k, v) :: ms, rest) := by
            have hshape : ('\n' :: (serMembers (ind + 2) (k, v) ms ++
                ('\n' :: (spacesN ind ++ ('\x7d' :: rest)))))
                = ['\n'] ++ (serMembers (ind + 2) (k, v) ms ++
                  (('\n' :: spacesN ind) ++ ('\x7d' :: rest))) := by
              simp [List.append_assoc]
            rw [hshape]
            exact hC
          have hr : dropWs ('\n' :: (serMembers (ind + 2) (k, v) ms ++
              ('\n' :: (spacesN ind ++ ('\x7d' :: rest)))))
              = '"' :: (escStr k ++ ('"' :: (':' :: ' ' ::
                (serJ (ind + 2) v ++ (more ++
                  ('\n' :: (spacesN ind ++ ('\x7d' :: rest)))))))) := by
            rw [hm]
            have hshape : ('\n' :: ((spacesN (ind + 2) ++
                ('"' :: (escStr k ++ ('"' :: (':' :: ' ' ::
                  (serJ (ind + 2) v ++ more)))))) ++
                ('\n' :: (spacesN ind ++ ('\x7d' :: rest)))))
                = ('\n' :: spacesN (ind + 2)) ++
                  ('"' :: (escStr k ++ ('"' :: (':' :: ' ' ::
                    (serJ (ind + 2) v ++ (more ++
                      ('\n' :: (spacesN ind ++ ('\x7d' :: rest))))))))) := by
              simp [List.append_assoc]
            rw [hshape, dropWs_ws_append _ _ (allWs_nl_spaces _)]
            exact dropWs_cons_not _ _ (by decide)
          rw [hr]
          simp [hmain]
    · -- element lists
      intro x xs ind rest pre mid hpre hmid hsz
      have hws : allWs (pre ++ spacesN ind) = true := by
        simp [allWs, List.all_append] at hpre ⊢
        exact ⟨hpre, by
          have := spacesN_allWs ind
          simp [allWs] at this
          exact this⟩
      simp only [parseElems]
      cases xs with
      | nil =>
        have hszx : jsize x ≤ f := by
          simp only [esize] at hsz
          omega
        have hA := ihA x ind (mid ++ ']' :: rest) (pre ++ spacesN ind) hws hszx
        have hshape : (pre ++ (serItems ind x [] ++ (mid ++ ']' :: rest)))
            = (pre ++ spacesN ind) ++ (serJ ind x ++ (mid ++ ']' :: rest)) := by
          simp [serItems, List.append_assoc]
        rw [hshape, hA]
        simp only [bind, Option.bind]
        have hdm : dropWs (mid ++ ']' :: rest) = ']' :: rest := by
          rw [dropWs_ws_append _ _ hmid]
          exact dropWs_cons_not _ _ (by decide)
        rw [hdm]
        rfl
      | cons y ys =>
        have hszx : jsize x ≤ f := by
          simp only [esize] at hsz
          omega
        have hszr : esize y ys ≤ f := by
          simp only [esize] at hsz
          omega
        have hA := ihA x ind
          (',' :: ('\n' :: (serItems ind y ys ++ (mid ++ ']' :: rest))))
          (pre ++ spacesN ind) hws hszx
        have hshape : (pre ++ (serItems ind x (y :: ys) ++ (mid ++ ']' :: rest)))
            = (pre ++ spacesN ind) ++ (serJ ind x ++
              (',' :: ('\n' :: (serItems ind y ys ++ (mid ++ ']' :: rest))))) := by
          simp [serItems, List.append_assoc]
        rw [hshape, hA]
        simp only [bind, Option.bind]
        rw [dropWs_cons_not _ _ (by decide : isJsonWs ',' = false)]
        have hB := ihB y ys ind rest ['\n'] mid (by decide) hmid hszr
        have hB2 : parseElems f ('\n' :: (serItems ind y ys ++
            (mid ++ ']' :: rest))) = some (y :: ys, rest) := by
          rw [show ('\n' :: (serItems ind y ys ++ (mid ++ ']' :: rest)))
            = ['\n'] ++ (serItems ind y ys ++ (mid ++ ']' :: rest)) from by simp]
          exact hB
        simp [hB2]
    · -- member lists
      intro k v ms ind rest pre mid hpre hmid hsz
      have hws : allWs (pre ++ spacesN ind) = true := by
        simp [allWs, List.all_append] at hpre ⊢
        exact ⟨hpre, by
          have := spacesN_allWs ind
          simp [allWs] at this
          exact this⟩
      simp only [parseMems]
      cases ms with
      | nil =>
        have hszv : jsize v ≤ f := by
          simp only [msize] at hsz
          omega
        have hA := ihA v ind (mid ++ '\x7d' :: rest) [' '] (by decide) hszv
        have hd : dropWs (pre ++ (serMembers ind (k, v) [] ++
            (mid ++ '\x7d' :: rest)))
            = '"' :: (escStr k ++ ('"' :: (':' :: (' ' ::
              (serJ ind v ++ (mid ++ '\x7d' :: rest)))))) := by
          have hshape : (pre ++ (serMembers ind (k, v) [] ++
              (mid ++ '\x7d' :: rest)))
              = (pre ++ spacesN ind) ++ ('"' :: (escStr k ++ ('"' :: (':' ::
                (' ' :: (serJ ind v ++ (mid ++ '\x7d' :: rest))))))) := by
            simp [serMembers, quoteStr, List.append_assoc]
          rw [hshape, dropWs_ws_append _ _ hws]
          exact dropWs_cons_not _ _ (by decide)
        rw [hd]
        have hkey := parseStrBody_esc k
          (':' :: (' ' :: (serJ ind v ++ (mid ++ '\x7d' :: rest))))
        have hA2 : parseV f (' ' :: (serJ ind v ++ (mid ++ '\x7d' :: rest)))
            = some (v, mid ++ '\x7d' :: rest) := by
          rw [show (' ' :: (serJ ind v ++ (mid ++ '\x7d' :: rest)))
            = [' '] ++ (serJ ind v ++ (mid ++ '\x7d' :: rest)) from by simp]
          exact hA
        have hdm : dropWs (mid ++ '\x7d' :: rest) = '\x7d' :: rest := by
          rw [dropWs_ws_append _ _ hmid]
          exact dropWs_cons_not _ _ (by decide)
        simp [hkey, dropWs_cons_not _ _ (by decide : isJsonWs ':' = false),
          hA2, hdm]
      | cons m2 ms2 =>
        obtain ⟨k2, v2⟩ := m2
        have hszv : jsize v ≤ f := by
          simp only [msize] at hsz
          omega
        have hszr : msize (k2, v2) ms2 ≤ f := by
          simp only [msize] at hsz
          omega
        have hA := ihA v ind
          (',' :: ('\n' :: (serMembers ind (k2, v2) ms2 ++
            (mid ++ '\x7d' :: rest)))) [' '] (by decide) hszv
        have hd : dropWs (pre ++ (serMembers ind (k, v) ((k2, v2) :: ms2) ++
            (mid ++ '\x7d' :: rest)))
            = '"' :: (escStr k ++ ('"' :: (':' :: (' ' ::
              (serJ ind v ++ (',' :: ('\n' :: (serMembers ind (k2, v2) ms2 ++
                (mid ++ '\x7d' :: rest))))))))) := by
          have hshape : (pre ++ (serMembers ind (k, v) ((k2, v2) :: ms2) ++
              (mid ++ '\x7d' :: rest)))
              = (pre ++ spacesN ind) ++ ('"' :: (escStr k ++ ('"' :: (':' ::
                (' ' :: (serJ ind v ++ (',' :: ('\n' ::
                  (serMembers ind (k2, v2) ms2 ++
                    (mid ++ '\x7d' :: rest)))))))))) := by
            simp [serMembers, quoteStr, List.append_assoc]
          rw [hshape, dropWs_ws_append _ _ hws]
          exact dropWs_cons_not _ _ (by decide)
        rw [hd]
        have hkey := parseStrBody_esc k
          (':' :: (' ' :: (serJ ind v ++ (',' :: ('\n' ::
            (serMembers ind (k2, v2) ms2 ++ (mid ++ '\x7d' :: rest)))))))
        have hA2 : parseV f (' ' :: (serJ ind v ++ (',' :: ('\n' ::
            (serMembers ind (k2, v2) ms2 ++ (mid ++ '\x7d' :: rest))))))
            = some (v, ',' :: ('\n' :: (serMembers ind (k2, v2) ms2 ++
              (mid ++ '\x7d' :: rest)))) := by
          rw [show (' ' :: (serJ ind v ++ (',' :: ('\n' ::
            (serMembers ind (k2, v2) ms2 ++ (mid ++ '\x7d' :: rest))))))
            = [' '] ++ (serJ ind v ++ (',' :: ('\n' ::
              (serMembers ind (k2, v2) ms2 ++ (mid ++ '\x7d' :: rest)))))
            from by simp]
          exact hA
        have hC := ihC k2 v2 ms2 ind rest ['\n'] mid (by decide) hmid hszr
        have hC2 : parseMems f ('\n' :: (serMembers ind (k2, v2) ms2 ++
            (mid ++ '\x7d' :: rest))) = some ((k2, v2) :: ms2, rest) := by
          rw [show ('\n' :: (serMembers ind (k2, v2) ms2 ++
            (mid ++ '\x7d' :: rest)))
            = ['\n'] ++ (serMembers ind (k2, v2) ms2 ++
              (mid ++ '\x7d' :: rest)) from by simp]
          exact hC
        simp [hkey, dropWs_cons_not _ _ (by decide : isJsonWs ':' = false),
          hA2, dropWs_cons_not _ _ (by decide : isJsonWs ',' = false), hC2]

/-- The fuel measure is bounded by the length of the serialization. -/
theorem ser_size_le : ∀ n : Nat,
    (∀ j ind, jsize j ≤ n → jsize j ≤ (serJ ind j).length) ∧
    (∀ x xs ind, esize x xs ≤ n →
      esize x xs ≤ (serItems ind x xs).length + 1) ∧
    (∀ k v ms ind, msize (k, v) ms ≤ n →
      msize (k, v) ms ≤ (serMembers ind (k, v) ms).length + 1) := by
  intro n
  induction n with
  | zero =>
    refine ⟨?_, ?_, ?_⟩
    · intro j ind hsz
      have := jsize_pos j
      omega
    · intro x xs ind hsz
      have := esize_pos x xs
      omega
    · intro k v ms ind hsz
      have := msize_pos (k, v) ms
      omega
  | succ n ih =>
    obtain ⟨ihA, ihB, ihC⟩ := ih
    refine ⟨?_, ?_, ?_⟩
    · intro j ind hsz
      cases j with
      | null => simp [jsize, serJ]
      | bool b => cases b <;> simp [jsize, serJ]
      | str s0 => simp [jsize, serJ, quoteStr]
      | arr xs =>
        cases xs with
        | nil => simp [jsize, serJ]
        | cons x xs =>
          have h1 : esize x xs ≤ n := by
            simp only [jsize] at hsz
            omega
          have h2 := ihB x xs (ind + 2) h1
          simp only [jsize, serJ, List.length_cons, List.length_append,
            List.length_replicate, spacesN] at *
          omega
      | obj ms =>
        cases ms with
        | nil => simp [jsize, serJ]
        | cons m ms =>
          obtain ⟨k, v⟩ := m
          have h1 : msize (k, v) ms ≤ n := by
            simp only [jsize] at hsz
            omega
          have h2 := ihC k v ms (ind + 2) h1
          simp only [jsize, serJ, List.length_cons, List.length_append,
            List.length_replicate, spacesN] at *
          omega
    · intro x xs ind hsz
      cases xs with
      | nil =>
        have h1 : jsize x ≤ n := by
          simp only [esize] at hsz
          omega
        have h2 := ihA x ind h1
        simp only [esize, serItems, List.length_append,
          List.length_replicate, spacesN] at *
        omega
      | cons y ys =>
        have hp := esize_pos y ys
        have hq := jsize_pos x
        have h1 : jsize x ≤ n := by
          simp only [esize] at hsz
          omega
        have h1b : esize y ys ≤ n := by
          simp only [esize] at hsz
          omega
        have h2 := ihA x ind h1
        have h3 := ihB y ys ind h1b
        simp only [esize, serItems, List.length_append, List.length_cons,
          List.length_replicate, spacesN] at *
        omega
    · intro k v ms ind hsz
      cases ms with
      | nil =>
        have h1 : jsize v ≤ n := by
          simp only [msize] at hsz
          omega
        have h2 := ihA v ind h1
        simp only [msize, serMembers, quoteStr, List.length_append,
          List.length_cons, List.length_replicate, spacesN] at *
        omega
      | cons m2 ms2 =>
        obtain ⟨k2, v2⟩ := m2
        have hp := msize_pos (k2, v2) ms2
        have hq := jsize_pos v
        have h1 : jsize v ≤ n := by
          simp only [msize] at hsz
          omega
        have h1b : msize (k2, v2) ms2 ≤ n := by
          simp only [msize] at hsz
          omega
        have h2 := ihA v ind h1
        have h3 := ihC k2 v2 ms2 ind h1b
        simp only [msize, serMembers, quoteStr, List.length_append,
          List.length_cons, List.length_replicate, spacesN] at *
        omega

/-- Parsing the full serialization of a value recovers the value. -/
theorem parse_serJ_full (j : Json) : parseJsonText (serJ 0 j) = some j := by
  have hle : jsize j ≤ (serJ 0 j).length :=
    (ser_size_le (jsize j)).1 j 0 le_rfl
  have hA := (parse_ser ((serJ 0 j).length + 1)).1 j 0 [] [] rfl (by omega)
  have hA2 : parseV ((serJ 0 j).length + 1) (serJ 0 j) = some (j, []) := by
    simpa using hA
  unfold parseJsonText
  rw [hA2]
  simp [dropWs]

theorem checkFromJson_toJson (c : Check) :
    checkFromJson (checkToJson c) = some c := by
  simp [checkFromJson, checkToJson]

theorem mapOC_toJson (cs : List Check) :
    mapOC (cs.map checkToJson) = some cs := by
  induction cs with
  | nil => rfl
  | cons c cs ih =>
    simp [mapOC, checkFromJson_toJson, ih, bind, Option.bind]

theorem mapOS_str (rs : List Str) :
    mapOS (rs.map Json.str) = some rs := by
  induction rs with
  | nil => rfl
  | cons r rs ih => simp [mapOS, asStr, ih, bind, Option.bind]

theorem reportFromJson_toJson (r : Report) :
    reportFromJson (reportToJson r) = some r := by
  simp [reportFromJson, reportToJson, mapOC_toJson, mapOS_str, bind,
    Option.bind]

/-- C9: parsing the output of the structured (JSON) rendering recovers the
original ValidationReport, field for field, with no information loss. -/
theorem claim9_json_roundtrip (r : Report) (tr : Str → Str) :
    parseReport (formatOutput r "json".data tr) = some r := by
  have h1 : formatOutput r "json".data tr = serJ 0 (reportToJson r) := by
    simp [formatOutput]
  rw [h1]
  unfold parseReport
  rw [parse_serJ_full]
  simp [Option.bind, reportFromJson_toJson]
